import Mathlib

/-!
Verification of the document-to-answer pipeline of the Zania Q&A service.

The development shallowly embeds the Python modules `app/document_loader.py`,
`app/rag_chain.py` and `app/main.py`.  External capabilities (the PDF loader,
the embedding model, the generative model, the chat-history database and the
file system) are passed in as explicit oracle parameters, exactly at the
points where the source calls out to them.  JSON values are modelled by an
inductive type whose numbers are integers; floating-point literals are
outside the model.
-/

namespace Zania

/-- JSON values as produced by Python `json.load`.  Objects are
insertion-ordered key/value lists; numbers are modelled as integers. -/
inductive Json where
  | null : Json
  | bool (b : Bool) : Json
  | num (n : Int) : Json
  | str (s : String) : Json
  | arr (items : List Json) : Json
  | obj (members : List (String × Json)) : Json
deriving Repr

/-- Lowercase hexadecimal digit, as used by Python string escapes. -/
def hexDigitChar (n : Nat) : Char :=
  if n < 10 then Char.ofNat (48 + n) else Char.ofNat (97 + (n - 10))

/-- Four lowercase hexadecimal digits, most significant first. -/
def toHex4 (n : Nat) : List Char :=
  [hexDigitChar (n / 4096 % 16), hexDigitChar (n / 256 % 16),
   hexDigitChar (n / 16 % 16), hexDigitChar (n % 16)]

/-- One character of `json.dumps` output with the default `ensure_ascii=True`:
short escapes for the quote, backslash and common control characters, `\uXXXX`
escapes (with surrogate pairs above the BMP) for every other character outside
`0x20`–`0x7e`, and the character itself otherwise. -/
def escapeChar (c : Char) : List Char :=
  if c = '"' then ['\\', '"']
  else if c = '\\' then ['\\', '\\']
  else if c = '\n' then ['\\', 'n']
  else if c = '\r' then ['\\', 'r']
  else if c = '\t' then ['\\', 't']
  else if c = '\x08' then ['\\', 'b']
  else if c = '\x0c' then ['\\', 'f']
  else if 0x20 ≤ c.toNat ∧ c.toNat ≤ 0x7e then [c]
  else if c.toNat ≤ 0xffff then '\\' :: 'u' :: toHex4 c.toNat
  else
    let n := c.toNat - 0x10000
    '\\' :: 'u' :: toHex4 (0xd800 + n / 0x400) ++
      ('\\' :: 'u' :: toHex4 (0xdc00 + n % 0x400))

/-- `escapeChar` mapped over a character list. -/
def escapeList : List Char → List Char
  | [] => []
  | c :: cs => escapeChar c ++ escapeList cs

/-- A JSON string literal: quoted, escaped body. -/
def encodeString (s : String) : List Char :=
  '"' :: escapeList s.data ++ ['"']

/-- Decimal digit character. -/
def decDigitChar (d : Nat) : Char := Char.ofNat (48 + d)

/-- Decimal representation of a natural number, as Python prints it. -/
def natDec (n : Nat) : List Char :=
  if n < 10 then [decDigitChar n]
  else natDec (n / 10) ++ [decDigitChar (n % 10)]
decreasing_by exact Nat.div_lt_self (by omega) (by omega)

/-- Decimal representation of an integer, as Python `str(int)` prints it. -/
def intDec (n : Int) : List Char :=
  if n < 0 then '-' :: natDec (-n).toNat else natDec n.toNat

/-- `indent` spaces. -/
def pad (n : Nat) : List Char := List.replicate n ' '

mutual

/-- Output of Python `json.dumps(value, indent=2)` at indentation level `ind`:
literals for scalars, and for non-empty containers one element per line,
indented two further spaces, elements separated by a comma plus newline, with
the closing bracket back at the enclosing level.  Empty containers print with
no inner whitespace. -/
def dumpsVal (ind : Nat) : Json → List Char
  | .null => "null".data
  | .bool true => "true".data
  | .bool false => "false".data
  | .num n => intDec n
  | .str s => encodeString s
  | .arr [] => ['[', ']']
  | .arr (x :: xs) =>
      '[' :: '\n' :: (dumpsItems (ind + 2) x xs ++ '\n' :: pad ind ++ [']'])
  | .obj [] => ['\x7b', '\x7d']
  | .obj (⟨k, v⟩ :: ms) =>
      '\x7b' :: '\n' :: (dumpsMembers (ind + 2) k v ms ++ '\n' :: pad ind ++ ['\x7d'])
termination_by j => sizeOf j
decreasing_by all_goals (simp_wf; try omega)

/-- The lines of a non-empty pretty-printed array body. -/
def dumpsItems (ind : Nat) (x : Json) (xs : List Json) : List Char :=
  match xs with
  | [] => pad ind ++ dumpsVal ind x
  | y :: ys => pad ind ++ dumpsVal ind x ++ ',' :: '\n' :: dumpsItems ind y ys
termination_by sizeOf x + sizeOf xs
decreasing_by all_goals (simp_wf; try omega)

/-- The lines of a non-empty pretty-printed object body. -/
def dumpsMembers (ind : Nat) (k : String) (v : Json) (ms : List (String × Json)) : List Char :=
  match ms with
  | [] => pad ind ++ encodeString k ++ ':' :: ' ' :: dumpsVal ind v
  | ⟨k2, v2⟩ :: ms2 =>
      pad ind ++ encodeString k ++ ':' :: ' ' :: dumpsVal ind v ++
        ',' :: '\n' :: dumpsMembers ind k2 v2 ms2
termination_by sizeOf v + sizeOf ms
decreasing_by all_goals (simp_wf; try omega)

end

/-- Python `json.dumps(value, indent=2)`. -/
def dumps (j : Json) : String := String.mk (dumpsVal 0 j)

/-- The quote character Python `repr` picks for a string: double quotes when
the string contains a single quote but no double quote, single quotes
otherwise. -/
def pyQuote (s : String) : Char :=
  if s.data.contains (Char.ofNat 39) ∧ ¬ s.data.contains '"' then '"'
  else Char.ofNat 39

/-- One character of a Python string `repr` body quoted with `q`.  Characters
below `0x20` and the delete character use `\xXX` escapes; other non-printable
characters are kept verbatim by this model. -/
def pyReprChar (q : Char) (c : Char) : List Char :=
  if c = '\\' then ['\\', '\\']
  else if c = q then ['\\', q]
  else if c = '\n' then ['\\', 'n']
  else if c = '\r' then ['\\', 'r']
  else if c = '\t' then ['\\', 't']
  else if c.toNat < 0x20 ∨ c.toNat = 0x7f then
    ['\\', 'x', hexDigitChar (c.toNat / 16), hexDigitChar (c.toNat % 16)]
  else [c]

/-- `pyReprChar` mapped over a character list. -/
def pyReprBody (q : Char) : List Char → List Char
  | [] => []
  | c :: cs => pyReprChar q c ++ pyReprBody q cs

/-- Python `repr` of a string: the chosen quote around the escaped body. -/
def pyReprString (s : String) : List Char :=
  pyQuote s :: pyReprBody (pyQuote s) s.data ++ [pyQuote s]

mutual

/-- Python `repr` of a JSON value: `None`/`True`/`False`, decimal integers,
quoted strings, and bracketed containers with `", "` separators and `": "`
between keys and values. -/
def pyRepr : Json → List Char
  | .null => "None".data
  | .bool true => "True".data
  | .bool false => "False".data
  | .num n => intDec n
  | .str s => pyReprString s
  | .arr [] => ['[', ']']
  | .arr (x :: xs) => '[' :: pyReprItems x xs ++ [']']
  | .obj [] => ['\x7b', '\x7d']
  | .obj (⟨k, v⟩ :: ms) => '\x7b' :: pyReprMembers k v ms ++ ['\x7d']
termination_by j => sizeOf j
decreasing_by all_goals (simp_wf; try omega)

/-- Comma-separated `repr`s of the elements of a non-empty list. -/
def pyReprItems (x : Json) (xs : List Json) : List Char :=
  match xs with
  | [] => pyRepr x
  | y :: ys => pyRepr x ++ ',' :: ' ' :: pyReprItems y ys
termination_by sizeOf x + sizeOf xs
decreasing_by all_goals (simp_wf; try omega)

/-- Comma-separated `repr`s of the members of a non-empty dict. -/
def pyReprMembers (k : String) (v : Json) (ms : List (String × Json)) : List Char :=
  match ms with
  | [] => pyReprString k ++ ':' :: ' ' :: pyRepr v
  | ⟨k2, v2⟩ :: ms2 =>
      pyReprString k ++ ':' :: ' ' :: pyRepr v ++ ',' :: ' ' :: pyReprMembers k2 v2 ms2
termination_by sizeOf v + sizeOf ms
decreasing_by all_goals (simp_wf; try omega)

end

/-- Python `str` applied to a JSON value: a string is returned itself, every
other value as its `repr`. -/
def pyStr : Json → String
  | .str s => s
  | j => String.mk (pyRepr j)

/-- A loaded document: `langchain` `Document` with `page_content` and the
`source` entry of its metadata. -/
structure TextUnit where
  page_content : String
  source : String
deriving Repr, DecidableEq

/-- The final component of a path: the characters after the last slash. -/
def lastComponent (cs : List Char) : List Char :=
  cs.foldl (fun acc c => if c = '/' then [] else acc ++ [c]) []

/-- Split a name around its last dot, when it has one. -/
def splitLastDot : List Char → Option (List Char × List Char)
  | [] => none
  | c :: cs =>
      match splitLastDot cs with
      | some (b, a) => some (c :: b, a)
      | none => if c = '.' then some ([], cs) else none

/-- `pathlib.PurePath.suffix`: the extension of the final component, from the
last dot inclusive; empty when the name has no dot, starts with its only dot,
or ends with the dot. -/
def pathSuffix (p : String) : String :=
  match splitLastDot (lastComponent p.data) with
  | some (b, a) => if b ≠ [] ∧ a ≠ [] then String.mk ('.' :: a) else ""
  | none => ""

/-- Python `str.lower` applied characterwise; extensions are compared
against ASCII literals, for which the characterwise basic-latin lowering
agrees with Python. -/
def strLower (s : String) : String := String.mk (s.data.map Char.toLower)

/-- Errors raised by the loaders (`ValueError` in the source; `UnsupportedFormat`
and `InvalidFormat` in the specification's taxonomy), carrying the extension
interpolated into the message. -/
inductive LoadError where
  | unsupportedFormat (ext : String)
  | invalidFormat (ext : String)
deriving Repr, DecidableEq

/-- `load_json_document` of `app/document_loader.py`: the parsed JSON value
becomes exactly one document.  A top-level list joins its elements with blank
lines, each element pretty-printed when it is a dict and stringified
otherwise; a top-level dict is pretty-printed; any other value is
stringified.  Metadata records the source path. -/
def load_json_document (data : Json) (file_path : String) : List TextUnit :=
  let content :=
    match data with
    | .arr items =>
        String.intercalate "\n\n"
          (items.map fun item =>
            match item with
            | .obj _ => dumps item
            | _ => pyStr item)
    | .obj _ => dumps data
    | _ => pyStr data
  [⟨content, file_path⟩]

/-- `load_document` of `app/document_loader.py`.  The PDF loader and the file
read feeding `json.load` are external and passed as oracles.  Dispatch is on
the lower-cased `pathlib` suffix; any other suffix raises `ValueError` with
the lower-cased suffix in the message. -/
def load_document (pdfLoad : String → List TextUnit) (readJson : String → Json)
    (file_path : String) : Except LoadError (List TextUnit) :=
  let suffix := strLower (pathSuffix file_path)
  if suffix = ".pdf" then .ok (pdfLoad file_path)
  else if suffix = ".json" then .ok (load_json_document (readJson file_path) file_path)
  else .error (.unsupportedFormat suffix)

/-- Python dict lookup on the insertion-ordered member list: with duplicate
keys the later binding wins, as in a dict built by `json.load`. -/
def dictLookup (members : List (String × Json)) (key : String) : Option Json :=
  match members with
  | [] => none
  | m :: rest =>
      match dictLookup rest key with
      | some v => some v
      | none => if m.1 = key then some m.2 else none

/-- `load_questions_json` of `app/document_loader.py`: over a top-level list,
keep string elements and the `"question"` entry of dict elements that have
one, in order; skip everything else.  A non-list top-level value yields the
empty list. -/
def load_questions_json (data : Json) : List Json :=
  match data with
  | .arr items =>
      items.filterMap fun item =>
        match item with
        | .str s => some (.str s)
        | .obj members => dictLookup members "question"
        | _ => none
  | _ => []

/-- `load_questions` of `app/document_loader.py`: reject any path whose
lower-cased suffix is not `.json` with `ValueError`, then parse. -/
def load_questions (readJson : String → Json) (file_path : String) :
    Except LoadError (List Json) :=
  let suffix := strLower (pathSuffix file_path)
  if suffix ≠ ".json" then .error (.invalidFormat suffix)
  else .ok (load_questions_json (readJson file_path))

/-- JSON whitespace. -/
def isWsChar (c : Char) : Bool := c = ' ' || c = '\n' || c = '\t' || c = '\x0d'

/-- Drop leading JSON whitespace. -/
def skipWs : List Char → List Char
  | [] => []
  | c :: cs => if isWsChar c then skipWs cs else c :: cs

/-- Value of a hexadecimal digit, upper or lower case. -/
def hexVal? (c : Char) : Option Nat :=
  if 48 ≤ c.toNat ∧ c.toNat ≤ 57 then some (c.toNat - 48)
  else if 97 ≤ c.toNat ∧ c.toNat ≤ 102 then some (c.toNat - 87)
  else if 65 ≤ c.toNat ∧ c.toNat ≤ 70 then some (c.toNat - 55)
  else none

/-- Read exactly four hexadecimal digits. -/
def parseHex4 : List Char → Option (Nat × List Char)
  | c1 :: c2 :: c3 :: c4 :: rest =>
      match hexVal? c1, hexVal? c2, hexVal? c3, hexVal? c4 with
      | some v1, some v2, some v3, some v4 =>
          some (((v1 * 16 + v2) * 16 + v3) * 16 + v4, rest)
      | _, _, _, _ => none
  | _ => none

/-- Body of a JSON string literal, after the opening quote: plain characters,
short escapes, and `\uXXXX` escapes, where a high-surrogate escape must be
followed by a low-surrogate escape and the pair denotes one code point.  A
lone surrogate escape denotes no Unicode scalar value and is rejected by this
reader, as is an unescaped control character.  `fuel` bounds the number of
characters produced. -/
def parseStringBody : Nat → List Char → List Char → Option (List Char × List Char)
  | 0, _, _ => none
  | fuel + 1, acc, input =>
      match input with
      | [] => none
      | c :: cs =>
          if c = '"' then some (acc, cs)
          else if c = '\\' then
            match cs with
            | [] => none
            | e :: es =>
                if e = '"' then parseStringBody fuel (acc ++ ['"']) es
                else if e = '\\' then parseStringBody fuel (acc ++ ['\\']) es
                else if e = '/' then parseStringBody fuel (acc ++ ['/']) es
                else if e = 'n' then parseStringBody fuel (acc ++ ['\n']) es
                else if e = 't' then parseStringBody fuel (acc ++ ['\t']) es
                else if e = 'r' then parseStringBody fuel (acc ++ ['\x0d']) es
                else if e = 'b' then parseStringBody fuel (acc ++ ['\x08']) es
                else if e = 'f' then parseStringBody fuel (acc ++ ['\x0c']) es
                else if e = 'u' then
                  match parseHex4 es with
                  | none => none
                  | some (n, rest2) =>
                      if 0xd800 ≤ n ∧ n ≤ 0xdbff then
                        match rest2 with
                        | '\\' :: 'u' :: rest3 =>
                            match parseHex4 rest3 with
                            | some (n2, rest4) =>
                                if 0xdc00 ≤ n2 ∧ n2 ≤ 0xdfff then
                                  parseStringBody fuel
                                    (acc ++ [Char.ofNat
                                      (0x10000 + (n - 0xd800) * 0x400 + (n2 - 0xdc00))])
                                    rest4
                                else none
                            | none => none
                        | _ => none
                      else if 0xdc00 ≤ n ∧ n ≤ 0xdfff then none
                      else parseStringBody fuel (acc ++ [Char.ofNat n]) rest2
                else none
          else if c.toNat < 0x20 then none
          else parseStringBody fuel (acc ++ [c]) cs

/-- Decimal digit test. -/
def isDigitChar (c : Char) : Bool := 48 ≤ c.toNat && c.toNat ≤ 57

/-- Consume a run of decimal digits, accumulating their value. -/
def parseDigitsLoop (acc : Nat) : List Char → Nat × List Char
  | [] => (acc, [])
  | c :: cs =>
      if isDigitChar c then parseDigitsLoop (acc * 10 + (c.toNat - 48)) cs
      else (acc, c :: cs)

/-- An integer numeral: an optional minus sign and at least one digit.
Fractions and exponents are outside the model, as the JSON values themselves
carry integer numbers only. -/
def parseNum : List Char → Option (Int × List Char)
  | [] => none
  | c :: cs =>
      if c = '-' then
        match cs with
        | [] => none
        | d :: _ =>
            if isDigitChar d then
              let r := parseDigitsLoop 0 cs
              some (-(r.1 : Int), r.2)
            else none
      else if isDigitChar c then
        let r := parseDigitsLoop 0 (c :: cs)
        some ((r.1 : Int), r.2)
      else none

/-- Match an expected run of characters. -/
def expectChars : List Char → List Char → Option (List Char)
  | [], input => some input
  | c :: cs, input =>
      match input with
      | [] => none
      | d :: ds => if d = c then expectChars cs ds else none

mutual

/-- Read one JSON value, skipping leading whitespace.  `fuel` bounds the
nesting work; every recursive call decreases it. -/
def parseVal : Nat → List Char → Option (Json × List Char)
  | 0, _ => none
  | fuel + 1, input =>
      match skipWs input with
      | [] => none
      | c :: cs =>
          if c = '"' then
            match parseStringBody (cs.length + 1) [] cs with
            | some (body, rest) => some (.str (String.mk body), rest)
            | none => none
          else if c = '[' then parseArrStart fuel cs
          else if c = '\x7b' then parseObjStart fuel cs
          else if c = 'n' then (expectChars ['u', 'l', 'l'] cs).map fun rest => (.null, rest)
          else if c = 't' then (expectChars ['r', 'u', 'e'] cs).map fun rest => (.bool true, rest)
          else if c = 'f' then (expectChars ['a', 'l', 's', 'e'] cs).map fun rest => (.bool false, rest)
          else
            match parseNum (c :: cs) with
            | some (n, rest) => some (.num n, rest)
            | none => none

/-- After `[`: the empty array, or its elements. -/
def parseArrStart : Nat → List Char → Option (Json × List Char)
  | 0, _ => none
  | fuel + 1, input =>
      if (skipWs input).head? = some ']' then some (.arr [], (skipWs input).tail)
      else parseArrItems fuel input []

/-- Elements of a non-empty array: a value, then a comma and more elements or
the closing bracket. -/
def parseArrItems : Nat → List Char → List Json → Option (Json × List Char)
  | 0, _, _ => none
  | fuel + 1, input, acc =>
      match parseVal fuel input with
      | none => none
      | some (v, rest) =>
          match skipWs rest with
          | ',' :: rest2 => parseArrItems fuel rest2 (acc ++ [v])
          | ']' :: rest2 => some (.arr (acc ++ [v]), rest2)
          | _ => none

/-- After `{`: the empty object, or its members. -/
def parseObjStart : Nat → List Char → Option (Json × List Char)
  | 0, _ => none
  | fuel + 1, input =>
      if (skipWs input).head? = some '\x7d' then some (.obj [], (skipWs input).tail)
      else parseObjMembers fuel input []

/-- Members of a non-empty object: a string key, a colon, a value, then a
comma and more members or the closing brace. -/
def parseObjMembers : Nat → List Char → List (String × Json) → Option (Json × List Char)
  | 0, _, _ => none
  | fuel + 1, input, acc =>
      match skipWs input with
      | '"' :: cs =>
          match parseStringBody (cs.length + 1) [] cs with
          | none => none
          | some (body, rest) =>
              match skipWs rest with
              | ':' :: rest2 =>
                  match parseVal fuel rest2 with
                  | none => none
                  | some (v, rest3) =>
                      match skipWs rest3 with
                      | ',' :: rest4 =>
                          parseObjMembers fuel rest4 (acc ++ [(String.mk body, v)])
                      | '\x7d' :: rest4 =>
                          some (.obj (acc ++ [(String.mk body, v)]), rest4)
                      | _ => none
              | _ => none
      | _ => none

end

/-- A run of JSON whitespace characters. -/
def WsList (l : List Char) : Prop := ∀ c ∈ l, isWsChar c = true

/-- A residue a printed value may legally be followed by: empty, or headed by
a separator or closing bracket — never by a digit, so a numeral cannot leak
into it. -/
def TermOk : List Char → Prop
  | [] => True
  | c :: _ => c = ',' ∨ c = '\n' ∨ c = ']' ∨ c = '\x7d'

/-- Read a whole document as `json.loads` does: one value, then nothing but
whitespace. -/
def loads (s : String) : Option Json :=
  match parseVal (s.length + 1) s.data with
  | some (j, rest) => if (skipWs rest).isEmpty then some j else none
  | none => none

mutual

/-- Fuel sufficient to read back one printed value. -/
def jsonSize : Json → Nat
  | .null | .bool _ | .num _ | .str _ => 1
  | .arr [] => 2
  | .arr (x :: xs) => 2 + itemsSize x xs
  | .obj [] => 2
  | .obj (⟨_, v⟩ :: ms) => 2 + membersSize v ms
termination_by j => sizeOf j
decreasing_by all_goals (simp_wf; try omega)

/-- Fuel sufficient to read back the elements of a non-empty array. -/
def itemsSize (x : Json) (xs : List Json) : Nat :=
  match xs with
  | [] => jsonSize x + 1
  | y :: ys => jsonSize x + 1 + itemsSize y ys
termination_by sizeOf x + sizeOf xs
decreasing_by all_goals (simp_wf; try omega)

/-- Fuel sufficient to read back the members of a non-empty object. -/
def membersSize (v : Json) (ms : List (String × Json)) : Nat :=
  match ms with
  | [] => jsonSize v + 1
  | ⟨_, v2⟩ :: ms2 => jsonSize v + 1 + membersSize v2 ms2
termination_by sizeOf v + sizeOf ms
decreasing_by all_goals (simp_wf; try omega)

end

/-- Python dict over string keys as an insertion-ordered association list
with unique keys: assignment to an existing key overwrites its value in
place, assignment to a fresh key appends. -/
def dictInsert (d : List (String × String)) (key val : String) : List (String × String) :=
  if d.any fun p => p.1 = key then
    d.map fun p => if p.1 = key then (p.1, val) else p
  else d ++ [(key, val)]

/-- Lookup in an answers dict: with duplicate keys the later binding wins,
so on the unique-key lists a Python dict yields this is plain lookup. -/
def dictGet (d : List (String × String)) (key : String) : Option String :=
  match d with
  | [] => none
  | p :: rest =>
      match dictGet rest key with
      | some v => some v
      | none => if p.1 = key then some p.2 else none

/-- Loop of `answer_questions` in `app/rag_chain.py`.  The RAG chain is an
external capability, modelled as a state-threading oracle `step`, so the
answer to a question may depend on the position of the call; the loop asks
the questions one at a time in list order and stores each answer in the
dict under the question text. -/
def answerLoop {σ : Type} (step : σ → String → String × σ)
    (acc : List (String × String)) (s : σ) :
    List String → List (String × String) × σ
  | [] => (acc, s)
  | q :: qs =>
      let r := step s q
      answerLoop step (dictInsert acc q r.1) r.2 qs

/-- `answer_questions` of `app/rag_chain.py`, starting from the empty dict. -/
def answer_questions {σ : Type} (step : σ → String → String × σ) (s : σ)
    (questions : List String) : List (String × String) × σ :=
  answerLoop step [] s questions

/-- The question/answer pairs the loop produces, one per invocation of the
chain, in call order. -/
def answerTrace {σ : Type} (step : σ → String → String × σ) (s : σ) :
    List String → List (String × String)
  | [] => []
  | q :: qs =>
      let r := step s q
      (q, r.1) :: answerTrace step r.2 qs

/-- A chat message as stored in the history table: `HumanMessage` or
`AIMessage`. -/
inductive ChatMsg where
  | human (content : String)
  | ai (content : String)
deriving Repr, DecidableEq

/-- The chat-history store: the messages of each session id, in insertion
order. -/
def Store : Type := String → List ChatMsg

/-- `PostgresChatMessageHistory.aadd_messages`: append rows for one session. -/
def addMessages (store : Store) (sid : String) (msgs : List ChatMsg) : Store :=
  fun s => if s = sid then store s ++ msgs else store s

/-- Request body of `POST /chat`. -/
structure ChatRequest where
  message : String
  session_id : Option String

/-- Response body of `POST /chat`. -/
structure ChatResponse where
  session_id : String
  response : String
deriving Repr, DecidableEq

/-- The `chat` handler of `app/main.py`.  `request.session_id or
str(uuid.uuid4())` keeps a client-supplied non-empty id and otherwise
(absent, or empty hence falsy) uses the freshly generated UUID string,
passed here as the oracle `genUuid`.  The user message is appended to the
session's history, then the placeholder echo response, and both are
returned. -/
def chat (genUuid : String) (req : ChatRequest) (store : Store) :
    ChatResponse × Store :=
  let session_id :=
    match req.session_id with
    | some s => if s = "" then genUuid else s
    | none => genUuid
  let store1 := addMessages store session_id [.human req.message]
  let ai_response := "Echo: " ++ req.message
  let store2 := addMessages store1 session_id [.ai ai_response]
  (⟨session_id, ai_response⟩, store2)

/-- One element of the `messages` field of a history response. -/
structure MessageOut where
  role : String
  content : String
deriving Repr, DecidableEq

/-- Response body of `GET /chat/{session_id}`. -/
structure HistoryResponse where
  session_id : String
  messages : List MessageOut
deriving Repr, DecidableEq

/-- An `HTTPException`. -/
structure HttpError where
  status_code : Nat
  detail : String
deriving Repr, DecidableEq

/-- The `get_history` handler of `app/main.py`: 404 when the session has no
messages, otherwise the messages in insertion order, `HumanMessage` rows
with role `user` and every other row with role `assistant`. -/
def get_history (sid : String) (store : Store) : Except HttpError HistoryResponse :=
  let messages := store sid
  if messages.isEmpty then .error ⟨404, "Session not found"⟩
  else
    .ok ⟨sid, messages.map fun m =>
      match m with
      | .human content => ⟨"user", content⟩
      | .ai content => ⟨"assistant", content⟩⟩

/-- An exception escaping the `/qa` handler body: a deliberate
`HTTPException`, or any other exception raised by a loader or an external
capability. -/
inductive QAFailure where
  | http (status_code : Nat) (detail : String)
  | upstream (msg : String)
deriving Repr, DecidableEq

/-- File-system state: which paths currently exist. -/
def FileSet : Type := String → Bool

/-- `if os.path.exists(p): os.unlink(p)`: afterwards the path does not
exist, and no other path changes. -/
def unlinkIfExists (fs : FileSet) (p : String) : FileSet :=
  fun q => if q = p then false else fs q

/-- Body and `finally` block of the `process_qa` handler of `app/main.py`,
entered once both uploads have been saved to `questions_path` and
`document_path`.  The two loader calls and the retrieval pipeline (chunking,
embedding, retrieval and generation over the loaded documents) are oracles,
each of which may fail; `Except` models Python exception flow, so a `finally`
block runs on both the normal and the exceptional result.  The `finally`
block removes both temporary files. -/
def process_qa (questions_path document_path : String)
    (loadQ : Except QAFailure (List Json))
    (loadD : Except QAFailure (List TextUnit))
    (pipeline : List Json → List TextUnit → Except QAFailure (List (String × String)))
    (fs : FileSet) : Except QAFailure (List (String × String)) × FileSet :=
  let result : Except QAFailure (List (String × String)) := do
    let questions ← loadQ
    if questions.isEmpty then throw (.http 400 "No questions found in file")
    else do
      let documents ← loadD
      if documents.isEmpty then throw (.http 400 "No content found in document")
      else pipeline questions documents
  (result, unlinkIfExists (unlinkIfExists fs questions_path) document_path)

/-- Content formula of §4.1 of the specification for a JSON document: a
top-level list joins its serialized elements (pretty-printed if an object,
stringified otherwise) with blank-line separators; a top-level object is
pretty-printed; anything else is stringified. -/
def jsonDocContentSpec : Json → String
  | .arr items =>
      String.intercalate "\n\n"
        (items.map fun item =>
          match item with
          | .obj _ => dumps item
          | _ => pyStr item)
  | .obj members => dumps (.obj members)
  | other => pyStr other

/-- Classifier of §4.3 of the specification for one element of a questions
list: a string is kept, an object carrying a `question` key contributes the
value under that key, every other element is skipped. -/
def questionOfItem : Json → Option Json
  | .str s => some (.str s)
  | .obj members => dictLookup members "question"
  | _ => none

/-- Whether a JSON value is a top-level list. -/
def isArrJ : Json → Bool
  | .arr _ => true
  | _ => false

/-! ## Theorems -/

/-- C5: for every JSON document file, `load_json_document` returns exactly one
`TextUnit`, whose content follows the list / object / other serialization rule
of the specification and whose metadata records the source path. -/
theorem c5_load_json_document_one_unit (data : Json) (path : String) :
    load_json_document data path = [⟨jsonDocContentSpec data, path⟩] := by
  cases data <;> rfl

/-- C2: `load_questions_json` maps a JSON list of strings to exactly that
list in order; over any JSON list it keeps exactly the string elements and
the values under the `question` key of object elements carrying that key, in
order, skipping every other element; and any non-list top-level value yields
the empty sequence. -/
theorem c2_load_questions_json_shape (ss : List String) (items : List Json) (data : Json) :
    load_questions_json (.arr (ss.map Json.str)) = ss.map Json.str ∧
    load_questions_json (.arr items) = items.filterMap questionOfItem ∧
    (isArrJ data = false → load_questions_json data = []) := by
  refine ⟨?_, ?_, ?_⟩
  · induction ss with
    | nil => rfl
    | cons s tl ih =>
        simp only [load_questions_json, List.map_cons, List.filterMap_cons] at ih ⊢
        rw [ih]
  · rfl
  · cases data <;> simp [isArrJ, load_questions_json]

/-- C2 witness: concrete evaluations of the three shapes. -/
theorem c2_witness :
    load_questions_json (.obj []) = [] ∧
    load_questions_json
        (.arr [.str "a", .obj [("question", .str "b")], .obj [("x", .null)], .num 3]) =
      [.str "a", .str "b"] := by
  have h := c2_load_questions_json_shape ["a"]
    [.str "a", .obj [("question", .str "b")], .obj [("x", .null)], .num 3] (.obj [])
  refine ⟨h.2.2 rfl, ?_⟩
  rw [h.2.1]
  rfl

/-- C3: on every exit of the `/qa` handler body — success, client-input
error (`HTTPException`) or upstream failure — the `finally` block has removed
both temporary files before the handler returns. -/
theorem c3_qa_temp_files_removed (qp dp : String)
    (loadQ : Except QAFailure (List Json))
    (loadD : Except QAFailure (List TextUnit))
    (pipeline : List Json → List TextUnit → Except QAFailure (List (String × String)))
    (fs : FileSet) :
    (process_qa qp dp loadQ loadD pipeline fs).2 qp = false ∧
    (process_qa qp dp loadQ loadD pipeline fs).2 dp = false := by
  unfold process_qa unlinkIfExists
  constructor
  · by_cases h : qp = dp <;> simp [h]
  · simp

/-- C6: for every path whose (case-normalised) extension is neither `.pdf`
nor `.json`, `load_document` fails with the unsupported-format error carrying
the rejected extension. -/
theorem c6_load_document_unsupported (pdfLoad : String → List TextUnit)
    (readJson : String → Json) (path : String)
    (h1 : strLower (pathSuffix path) ≠ ".pdf") (h2 : strLower (pathSuffix path) ≠ ".json") :
    load_document pdfLoad readJson path =
      .error (.unsupportedFormat (strLower (pathSuffix path))) := by
  simp [load_document, h1, h2]

/-- C6 witness: a `.docx` upload is rejected with its extension in the error. -/
theorem c6_witness :
    load_document (fun _ => []) (fun _ => Json.null) "report.docx" =
      .error (.unsupportedFormat ".docx") := by
  have h := c6_load_document_unsupported (fun _ => []) (fun _ => Json.null) "report.docx"
    (by decide) (by decide)
  have e : strLower (pathSuffix "report.docx") = ".docx" := by decide
  rw [e] at h
  exact h

/-- C7: for every questions path whose (case-normalised) extension is not
`.json`, `load_questions` fails with the invalid-format error. -/
theorem c7_load_questions_invalid (readJson : String → Json) (path : String)
    (h : strLower (pathSuffix path) ≠ ".json") :
    load_questions readJson path = .error (.invalidFormat (strLower (pathSuffix path))) := by
  simp [load_questions, h]

/-- C7 witness: a `.txt` questions file is rejected. -/
theorem c7_witness :
    load_questions (fun _ => Json.null) "questions.txt" = .error (.invalidFormat ".txt") := by
  have h := c7_load_questions_invalid (fun _ => Json.null) "questions.txt" (by decide)
  have e : strLower (pathSuffix "questions.txt") = ".txt" := by decide
  rw [e] at h
  exact h

/-- C10: extension dispatch is case-insensitive — a path whose extension
lower-cases to `.pdf` or `.json` is dispatched to the corresponding loader
and accepted by `load_questions`, and every unsupported- or invalid-format
error carries the lower-cased extension. -/
theorem c10_dispatch_case_insensitive (pdfLoad : String → List TextUnit)
    (readJson : String → Json) (path : String) :
    (strLower (pathSuffix path) = ".pdf" →
      load_document pdfLoad readJson path = .ok (pdfLoad path)) ∧
    (strLower (pathSuffix path) = ".json" →
      load_document pdfLoad readJson path = .ok (load_json_document (readJson path) path)) ∧
    (strLower (pathSuffix path) = ".json" →
      load_questions readJson path = .ok (load_questions_json (readJson path))) ∧
    (∀ e, load_document pdfLoad readJson path = .error (.unsupportedFormat e) →
      e = strLower (pathSuffix path)) ∧
    (∀ e, load_questions readJson path = .error (.invalidFormat e) →
      e = strLower (pathSuffix path)) := by
  refine ⟨?_, ?_, ?_, ?_, ?_⟩
  · intro h
    simp [load_document, h]
  · intro h
    rw [load_document, h]
    rw [if_neg (by decide), if_pos rfl]
  · intro h
    rw [load_questions, h]
    rw [if_neg (by simp)]
  · intro e he
    rw [load_document] at he
    split_ifs at he with h1 h2 <;> simp at he
    exact he.symm
  · intro e he
    rw [load_questions] at he
    split_ifs at he with h1 <;> simp at he
    exact he.symm

/-- C10 witness: `.PDF` dispatches to the PDF loader, `.JSON` is accepted by
the question loader. -/
theorem c10_witness :
    load_document (fun p => [⟨"pdfpage", p⟩]) (fun _ => Json.arr []) "Doc.PDF" =
      .ok [⟨"pdfpage", "Doc.PDF"⟩] ∧
    load_questions (fun _ => Json.arr []) "Q.JSON" = .ok [] := by
  have h1 := (c10_dispatch_case_insensitive (fun p => [⟨"pdfpage", p⟩])
    (fun _ => Json.arr []) "Doc.PDF").1 (by decide)
  have h2 := (c10_dispatch_case_insensitive (fun p => [⟨"pdfpage", p⟩])
    (fun _ => Json.arr []) "Q.JSON").2.2.1 (by decide)
  exact ⟨h1, h2⟩

/-- C9: a `/chat` turn with no supplied session id uses the freshly generated
non-empty id, appends in this turn exactly the user message and then the
assistant echo to that session's history, and a subsequent history read
returns them in insertion order as roles `user` then `assistant`. -/
theorem c9_chat_turn (genUuid msg : String) (store : Store)
    (hgen : genUuid ≠ "") (hfresh : store genUuid = []) :
    (chat genUuid ⟨msg, none⟩ store).1.session_id = genUuid ∧
    (chat genUuid ⟨msg, none⟩ store).1.session_id ≠ "" ∧
    (chat genUuid ⟨msg, none⟩ store).2 genUuid = [.human msg, .ai ("Echo: " ++ msg)] ∧
    get_history genUuid ((chat genUuid ⟨msg, none⟩ store).2) =
      .ok ⟨genUuid, [⟨"user", msg⟩, ⟨"assistant", "Echo: " ++ msg⟩]⟩ := by
  refine ⟨rfl, hgen, ?_, ?_⟩ <;>
    simp [chat, addMessages, get_history, hfresh]

/-- Map lookup after overwriting every binding of `k` with `v`. -/
theorem dictGet_map_overwrite (k v q : String) (d : List (String × String)) :
    dictGet (d.map fun p => if p.1 = k then (p.1, v) else p) q =
      if q = k then (if d.any fun p => p.1 = k then some v else none) else dictGet d q := by
  induction d with
  | nil => by_cases h : q = k <;> simp [dictGet, h]
  | cons x t ih =>
      by_cases hq : q = k
      · subst hq
        by_cases hx : x.1 = q <;> by_cases ht : (t.any fun p => p.1 = q) = true <;>
          simp [List.map_cons, dictGet, ih, List.any_cons, hx, ht]
      · by_cases hx : x.1 = k
        · have hxnq : ¬ x.1 = q := fun h => hq (h ▸ hx)
          have hkq : ¬ k = q := fun h => hq h.symm
          simp [List.map_cons, dictGet, ih, List.any_cons, hq, hx, hxnq, hkq]
        · simp [List.map_cons, dictGet, ih, List.any_cons, hq, hx]

/-- Map lookup after appending a fresh binding at the end. -/
theorem dictGet_append_single (e : String × String) (q : String) (d : List (String × String)) :
    dictGet (d ++ [e]) q = if e.1 = q then some e.2 else dictGet d q := by
  induction d with
  | nil => simp [dictGet]
  | cons x t ih =>
      by_cases he : e.1 = q <;> simp [List.cons_append, dictGet, ih, he]

/-- Lookup after a Python dict assignment: the assigned key now maps to the
assigned value, every other key is unchanged. -/
theorem dictGet_dictInsert (d : List (String × String)) (k v q : String) :
    dictGet (dictInsert d k v) q = if q = k then some v else dictGet d q := by
  unfold dictInsert
  by_cases hany : d.any fun p => p.1 = k
  · rw [if_pos hany, dictGet_map_overwrite]
    by_cases hq : q = k <;> simp [hq, hany]
  · rw [if_neg hany, dictGet_append_single]
    by_cases hq : q = k
    · simp [hq]
    · have hkq : ¬ k = q := fun h => hq h.symm
      simp [hq, hkq]

/-- The keys of the produced trace are the questions, in order. -/
theorem answerTrace_map_fst {σ : Type} (step : σ → String → String × σ) :
    ∀ (qs : List String) (s : σ), (answerTrace step s qs).map Prod.fst = qs := by
  intro qs
  induction qs with
  | nil => intro s; rfl
  | cons q0 tl ih => intro s; simp [answerTrace, ih]

/-- Lookup in the loop's final dict: the last matching trace entry wins, and
keys absent from the trace fall back to the starting dict. -/
theorem answerLoop_get {σ : Type} (step : σ → String → String × σ) (q : String) :
    ∀ (qs : List String) (acc : List (String × String)) (s : σ),
      dictGet (answerLoop step acc s qs).1 q =
        match ((answerTrace step s qs).filter fun p => p.1 == q).getLast? with
        | some p => some p.2
        | none => dictGet acc q := by
  intro qs
  induction qs with
  | nil => intro acc s; rfl
  | cons q0 tl ih =>
      intro acc s
      have e1 : answerLoop step acc s (q0 :: tl)
          = answerLoop step (dictInsert acc q0 (step s q0).1) (step s q0).2 tl := rfl
      have e2 : answerTrace step s (q0 :: tl)
          = (q0, (step s q0).1) :: answerTrace step (step s q0).2 tl := rfl
      rw [e1, ih, e2, List.filter_cons]
      by_cases h0 : q0 = q
      · have hc : ((fun p : String × String => p.1 == q) (q0, (step s q0).1)) = true := by
          simp [h0]
        rw [if_pos hc]
        rcases hF :
            (answerTrace step (step s q0).2 tl).filter (fun p => p.1 == q) with _ | ⟨b, F⟩
        · rw [hF]
          simp [dictGet_dictInsert, h0]
        · rw [hF, List.getLast?_cons_cons]
          rcases hc2 : (b :: F).getLast? with _ | c
          · exact absurd (List.getLast?_eq_none_iff.mp hc2) (by simp)
          · rfl
      · have hc : ¬ (((fun p : String × String => p.1 == q) (q0, (step s q0).1)) = true) := by
          simp [h0]
        rw [if_neg hc]
        rw [dictGet_dictInsert, if_neg (fun h => h0 h.symm)]

/-- Every entry of the loop's final dict comes from the starting dict or from
the trace of raw chain responses. -/
theorem answerLoop_mem {σ : Type} (step : σ → String → String × σ) (p : String × String) :
    ∀ (qs : List String) (acc : List (String × String)) (s : σ),
      p ∈ (answerLoop step acc s qs).1 → p ∈ acc ∨ p ∈ answerTrace step s qs := by
  intro qs
  induction qs with
  | nil => intro acc s h; exact Or.inl h
  | cons q0 tl ih =>
      intro acc s h
      rcases ih (dictInsert acc q0 (step s q0).1) (step s q0).2 h with hin | htr
      · unfold dictInsert at hin
        by_cases hany : acc.any fun r => r.1 = q0
        · rw [if_pos hany] at hin
          rcases List.mem_map.mp hin with ⟨r, hr, hfr⟩
          by_cases hrk : r.1 = q0
          · right
            rw [if_pos hrk] at hfr
            have hp : p = (q0, (step s q0).1) := by rw [← hfr, hrk]
            rw [hp]
            exact List.mem_cons_self _ _
          · left
            rw [if_neg hrk] at hfr
            rw [← hfr]
            exact hr

        · rw [if_neg hany] at hin
          rcases List.mem_append.mp hin with h1 | h2
          · exact Or.inl h1
          · right
            simp only [List.mem_singleton] at h2
            simp [answerTrace, h2]
      · right
        simp [answerTrace, htr]

/-- Final state of the loop: the oracle was stepped through the questions in
list order. -/
theorem answerLoop_state {σ : Type} (step : σ → String → String × σ) :
    ∀ (qs : List String) (acc : List (String × String)) (s : σ),
      (answerLoop step acc s qs).2 = qs.foldl (fun st q2 => (step st q2).2) s := by
  intro qs
  induction qs with
  | nil => intro acc s; rfl
  | cons q0 tl ih => intro acc s; simp [answerLoop, ih]

/-- Keys of a dict stay duplicate-free under assignment. -/
theorem dictInsert_nodup_keys (d : List (String × String)) (k v : String)
    (h : (d.map Prod.fst).Nodup) : ((dictInsert d k v).map Prod.fst).Nodup := by
  unfold dictInsert
  by_cases hany : d.any fun p => p.1 = k
  · rw [if_pos hany, List.map_map]
    have : (Prod.fst ∘ fun p : String × String => if p.1 = k then (p.1, v) else p) = Prod.fst := by
      funext p
      by_cases hp : p.1 = k <;> simp [hp]
    rw [this]
    exact h
  · rw [if_neg hany, List.map_append]
    have hk : k ∉ d.map Prod.fst := by
      intro hmem
      rcases List.mem_map.mp hmem with ⟨p, hp, hpk⟩
      exact hany (List.any_eq_true.mpr ⟨p, hp, by simp [hpk]⟩)
    simp [List.nodup_append, h, hk]

/-- Keys of the loop's final dict are duplicate-free. -/
theorem answerLoop_nodup_keys {σ : Type} (step : σ → String → String × σ) :
    ∀ (qs : List String) (acc : List (String × String)) (s : σ),
      (acc.map Prod.fst).Nodup → (((answerLoop step acc s qs).1).map Prod.fst).Nodup := by
  intro qs
  induction qs with
  | nil => intro acc s h; exact h
  | cons q0 tl ih =>
      intro acc s h
      exact ih _ _ (dictInsert_nodup_keys acc q0 (step s q0).1 h)

/-- C4: the batch operation asks the chain each question sequentially in list
order (the oracle state is folded through the questions left to right), the
result is a mapping with duplicate-free keys drawn from the questions, and
the entry for each question text holds the answer of the last occurrence of
that question in the trace — last write wins. -/
theorem c4_answer_questions_last_write_wins {σ : Type} (step : σ → String → String × σ)
    (s : σ) (questions : List String) (q : String) :
    (dictGet (answer_questions step s questions).1 q =
      (((answerTrace step s questions).filter fun p => p.1 == q).getLast?).map fun p => p.2) ∧
    (answer_questions step s questions).2 =
      questions.foldl (fun st q2 => (step st q2).2) s ∧
    (((answer_questions step s questions).1).map Prod.fst).Nodup ∧
    (∀ p, p ∈ (answer_questions step s questions).1 → p.1 ∈ questions) := by
  refine ⟨?_, ?_, ?_, ?_⟩
  · rw [answer_questions, answerLoop_get]
    rcases hL : ((answerTrace step s questions).filter fun p => p.1 == q).getLast? with _ | p
    · rw [hL]
      rfl
    · rw [hL]
      rfl
  · exact answerLoop_state step questions [] s
  · exact answerLoop_nodup_keys step questions [] s (by simp)
  · intro p hp
    rcases answerLoop_mem step p questions [] s hp with h | h
    · simp at h
    · have := answerTrace_map_fst step questions s
      rw [← this]
      exact List.mem_map_of_mem Prod.fst h

/-- C1 counterexample: when the generative capability returns an empty (no
usable) result for a question, the pipeline stores the empty string for that
question — not the fixed fallback string `"Unable to find answer"`. -/
theorem c1_counterexample :
    (answer_questions (fun (s : Unit) (_ : String) => ("", s)) () ["q"]).1 = [("q", "")] ∧
    "" ≠ "Unable to find answer" := by
  constructor
  · rfl
  · decide

/-- C1 amended: the pipeline always returns the raw text response of the
generative capability — every entry of the returned mapping is literally one
of the chain's responses from the call trace, with no fallback substituted,
even when the response is empty. -/
theorem c1_raw_response_no_fallback {σ : Type} (step : σ → String → String × σ)
    (s : σ) (questions : List String) (p : String × String)
    (h : p ∈ (answer_questions step s questions).1) :
    p ∈ answerTrace step s questions := by
  rcases answerLoop_mem step p questions [] s h with h1 | h2
  · simp at h1
  · exact h2

/-- C1 witness: the empty raw response for question `q` is stored verbatim. -/
theorem c1_witness :
    (("q", "") : String × String) ∈
      answerTrace (fun (s : Unit) (_ : String) => ("", s)) () ["q"] :=
  c1_raw_response_no_fallback (fun (s : Unit) (_ : String) => ("", s)) () ["q"] ("q", "")
    (by simp [answer_questions, answerLoop, dictInsert])

/-- C9 witness: a concrete turn on an empty store. -/
theorem c9_witness :
    (chat "b6c1" ⟨"hi", none⟩ (fun _ => [])).1.session_id = "b6c1" ∧
    (chat "b6c1" ⟨"hi", none⟩ (fun _ => [])).1.session_id ≠ "" ∧
    (chat "b6c1" ⟨"hi", none⟩ (fun _ => [])).2 "b6c1" = [.human "hi", .ai "Echo: hi"] ∧
    get_history "b6c1" ((chat "b6c1" ⟨"hi", none⟩ (fun _ => [])).2) =
      .ok ⟨"b6c1", [⟨"user", "hi"⟩, ⟨"assistant", "Echo: hi"⟩]⟩ :=
  c9_chat_turn "b6c1" "hi" (fun _ => []) (by decide) rfl

/-! ### Round-trip development for the JSON reader -/

/-- `Char.ofNat` inverts `Char.toNat` on valid scalar values. -/
theorem char_toNat_ofNat {n : Nat} (h : n.isValidChar) : (Char.ofNat n).toNat = n := by
  rw [Char.ofNat, dif_pos h]
  simp [Char.ofNatAux, Char.toNat, UInt32.toNat]

/-- The code point of every `Char` avoids the surrogate range and the
out-of-range values. -/
theorem char_valid_nat (c : Char) :
    c.toNat < 0xd800 ∨ (0xdfff < c.toNat ∧ c.toNat < 0x110000) := by
  rcases c.valid with h | ⟨h1, h2⟩
  · left
    simpa [Char.toNat, UInt32.toNat, UInt32.lt_def, BitVec.lt_def] using h
  · right
    constructor
    · simpa [Char.toNat, UInt32.toNat, UInt32.lt_def, BitVec.lt_def] using h1
    · simpa [Char.toNat, UInt32.toNat, UInt32.lt_def, BitVec.lt_def] using h2

/-- Characters are determined by their code points. -/
theorem char_eq_of_toNat {c d : Char} (h : c.toNat = d.toNat) : c = d := by
  have h1 := Char.ofNat_toNat c
  have h2 := Char.ofNat_toNat d
  rw [← h1, ← h2, h]

/-- Skipping whitespace ignores a leading whitespace run. -/
theorem skipWs_ws_append {u : List Char} (hu : WsList u) (v : List Char) :
    skipWs (u ++ v) = skipWs v := by
  induction u with
  | nil => rfl
  | cons c cs ih =>
      have hc : isWsChar c = true := hu c (List.mem_cons_self _ _)
      have hcs : WsList cs := fun d hd => hu d (List.mem_cons_of_mem _ hd)
      simp [skipWs, hc, ih hcs]

/-- Skipping whitespace stops at a non-whitespace head. -/
theorem skipWs_cons_not_ws {c : Char} (h : isWsChar c = false) (cs : List Char) :
    skipWs (c :: cs) = c :: cs := by
  simp [skipWs, h]

/-- Spaces are whitespace. -/
theorem wsList_pad (n : Nat) : WsList (pad n) := by
  intro c hc
  rw [List.eq_of_mem_replicate hc]
  rfl

/-- Concatenations of whitespace runs are whitespace runs. -/
theorem wsList_append {u v : List Char} (hu : WsList u) (hv : WsList v) :
    WsList (u ++ v) := by
  intro c hc
  rcases List.mem_append.mp hc with h | h
  · exact hu c h
  · exact hv c h

/-- Code point of a decimal digit character. -/
theorem decDigitChar_toNat {d : Nat} (h : d < 10) : (decDigitChar d).toNat = 48 + d := by
  apply char_toNat_ofNat
  left
  omega

/-- Decimal digit characters pass the digit test. -/
theorem isDigitChar_decDigitChar {d : Nat} (h : d < 10) :
    isDigitChar (decDigitChar d) = true := by
  simp only [isDigitChar, decDigitChar_toNat h]
  simp
  omega

/-- A digit character is none of the characters the parser treats specially. -/
theorem digit_not_special {c : Char} (h : isDigitChar c = true) :
    isWsChar c = false ∧ c ≠ '"' ∧ c ≠ '[' ∧ c ≠ '\x7b' ∧ c ≠ 'n' ∧ c ≠ 't' ∧
      c ≠ 'f' ∧ c ≠ '-' ∧ c ≠ ']' ∧ c ≠ '\x7d' := by
  have hne : ∀ d : Char, isDigitChar d = false → c ≠ d := by
    intro d hd he
    rw [he, hd] at h
    exact Bool.false_ne_true h
  refine ⟨?_, hne _ (by decide), hne _ (by decide), hne _ (by decide), hne _ (by decide),
    hne _ (by decide), hne _ (by decide), hne _ (by decide), hne _ (by decide),
    hne _ (by decide)⟩
  have h1 : c ≠ ' ' := hne _ (by decide)
  have h2 : c ≠ '\n' := hne _ (by decide)
  have h3 : c ≠ '\t' := hne _ (by decide)
  have h4 : c ≠ '\x0d' := hne _ (by decide)
  simp [isWsChar, h1, h2, h3, h4]

/-- `natDec` produces only digit characters. -/
theorem natDec_digits : ∀ (n : Nat), ∀ c ∈ natDec n, isDigitChar c = true := by
  intro n
  induction n using Nat.strong_induction_on with
  | _ n ih =>
      intro c hc
      by_cases h : n < 10
      · rw [natDec, if_pos h] at hc
        rcases List.mem_singleton.mp hc with rfl
        exact isDigitChar_decDigitChar h
      · rw [natDec, if_neg h] at hc
        rcases List.mem_append.mp hc with h1 | h1
        · exact ih (n / 10) (Nat.div_lt_self (by omega) (by omega)) c h1
        · rcases List.mem_singleton.mp h1 with rfl
          exact isDigitChar_decDigitChar (Nat.mod_lt _ (by omega))

/-- `natDec` starts with a digit character. -/
theorem natDec_head (n : Nat) : ∃ c t, natDec n = c :: t ∧ isDigitChar c = true := by
  rcases hd : natDec n with _ | ⟨c, t⟩
  · exfalso
    by_cases h : n < 10
    · rw [natDec, if_pos h] at hd
      exact List.cons_ne_nil _ _ hd
    · rw [natDec, if_neg h] at hd
      rcases List.append_eq_nil.mp hd with ⟨_, h2⟩
      exact List.cons_ne_nil _ _ h2
  · exact ⟨c, t, rfl, natDec_digits n c (hd ▸ List.mem_cons_self _ _)⟩

/-- A legal residue never starts with a digit. -/
theorem termOk_head_not_digit {rest : List Char} (h : TermOk rest) :
    ∀ c t, rest = c :: t → isDigitChar c = false := by
  intro c t hct
  subst hct
  rcases h with h | h | h | h <;> rw [h] <;> decide

/-- The digit loop consumes exactly a run of digits, accumulating its value,
and stops at the residue. -/
theorem parseDigitsLoop_append (ds : List Char) :
    ∀ (acc : Nat) (rest : List Char),
      (∀ c ∈ ds, isDigitChar c = true) →
      (∀ c t, rest = c :: t → isDigitChar c = false) →
      parseDigitsLoop acc (ds ++ rest) =
        (ds.foldl (fun a c => a * 10 + (c.toNat - 48)) acc, rest) := by
  induction ds with
  | nil =>
      intro acc rest _ hrest
      rcases rest with _ | ⟨c, t⟩
      · rfl
      · simp [parseDigitsLoop, hrest c t rfl]
  | cons d ds ih =>
      intro acc rest hds hrest
      have hd : isDigitChar d = true := hds d (List.mem_cons_self _ _)
      simp only [List.cons_append, parseDigitsLoop, hd, if_true, List.foldl_cons]
      exact ih _ rest (fun c hc => hds c (List.mem_cons_of_mem _ hc)) hrest

/-- Folding the digit valuation over `natDec n` recovers `n`. -/
theorem foldl_natDec (n : Nat) : ∀ acc : Nat,
    (natDec n).foldl (fun a c => a * 10 + (c.toNat - 48)) acc =
      acc * 10 ^ (natDec n).length + n := by
  induction n using Nat.strong_induction_on with
  | _ n ih =>
      intro acc
      by_cases h : n < 10
      · rw [natDec, if_pos h]
        simp [decDigitChar_toNat h]
      · rw [natDec, if_neg h]
        rw [List.foldl_append]
        rw [ih (n / 10) (Nat.div_lt_self (by omega) (by omega)) acc]
        simp only [List.foldl_cons, List.foldl_nil, List.length_append, List.length_singleton]
        rw [decDigitChar_toNat (Nat.mod_lt _ (by omega))]
        have hp : 10 ^ ((natDec (n / 10)).length + 1) = 10 ^ (natDec (n / 10)).length * 10 :=
          pow_succ 10 _
        rw [hp, ← Nat.mul_assoc]
        have hdm := Nat.div_add_mod n 10
        omega

/-- Reading back a printed integer numeral. -/
theorem parseNum_intDec (n : Int) (rest : List Char) (hrest : TermOk rest) :
    parseNum (intDec n ++ rest) = some (n, rest) := by
  have hstop := termOk_head_not_digit hrest
  by_cases hn : n < 0
  · rw [intDec, if_pos hn]
    rcases natDec_head (-n).toNat with ⟨c, t, hct, hc⟩
    have hv : (natDec (-n).toNat).foldl (fun a c => a * 10 + (c.toNat - 48)) 0 = (-n).toNat := by
      rw [foldl_natDec]
      simp
    have hloop := parseDigitsLoop_append (natDec (-n).toNat) 0 rest (natDec_digits _) hstop
    rw [hv] at hloop
    rw [hct] at hloop ⊢
    simp only [List.cons_append] at hloop ⊢
    simp only [parseNum, if_pos rfl, hc, if_true, hloop]
    have h2 : ((-n).toNat : Int) = -n := Int.toNat_of_nonneg (by omega)
    simp [h2]
  · rw [intDec, if_neg hn]
    rcases natDec_head n.toNat with ⟨c, t, hct, hc⟩
    have hv : (natDec n.toNat).foldl (fun a c => a * 10 + (c.toNat - 48)) 0 = n.toNat := by
      rw [foldl_natDec]
      simp
    have hloop := parseDigitsLoop_append (natDec n.toNat) 0 rest (natDec_digits _) hstop
    rw [hv] at hloop
    rw [hct] at hloop ⊢
    simp only [List.cons_append] at hloop ⊢
    have hmm := digit_not_special hc
    simp only [parseNum, if_neg hmm.2.2.2.2.2.2.2.1, hc, if_true, hloop]
    simp [Int.toNat_of_nonneg (show (0 : Int) ≤ n by omega)]

/-- `hexVal?` inverts `hexDigitChar` on digit values. -/
theorem hexVal_hexDigitChar {d : Nat} (h : d < 16) : hexVal? (hexDigitChar d) = some d := by
  by_cases h10 : d < 10
  · have ht : (hexDigitChar d).toNat = 48 + d := by
      rw [hexDigitChar, if_pos h10]
      exact char_toNat_ofNat (Or.inl (by omega))
    rw [hexVal?, ht, if_pos (by omega)]
    congr 1
    omega
  · have ht : (hexDigitChar d).toNat = 97 + (d - 10) := by
      rw [hexDigitChar, if_neg h10]
      exact char_toNat_ofNat (Or.inl (by omega))
    rw [hexVal?, ht, if_neg (by omega), if_pos (by omega)]
    congr 1
    omega

/-- `parseHex4` inverts `toHex4` below `0x10000`. -/
theorem parseHex4_toHex4 {n : Nat} (h : n < 65536) (rest : List Char) :
    parseHex4 (toHex4 n ++ rest) = some (n, rest) := by
  have h1 : n / 4096 % 16 < 16 := Nat.mod_lt _ (by omega)
  have h2 : n / 256 % 16 < 16 := Nat.mod_lt _ (by omega)
  have h3 : n / 16 % 16 < 16 := Nat.mod_lt _ (by omega)
  have h4 : n % 16 < 16 := Nat.mod_lt _ (by omega)
  rw [toHex4]
  simp only [List.cons_append, List.nil_append, parseHex4, hexVal_hexDigitChar h1,
    hexVal_hexDigitChar h2, hexVal_hexDigitChar h3, hexVal_hexDigitChar h4]
  congr 1
  congr 1
  omega

/-- Escaping a character produces at least one character. -/
theorem escapeChar_length (c : Char) : 1 ≤ (escapeChar c).length := by
  rw [escapeChar]
  split_ifs <;> simp

/-- Escaping cannot shrink a string. -/
theorem escapeList_length_ge (cs : List Char) : cs.length ≤ (escapeList cs).length := by
  induction cs with
  | nil => simp [escapeList]
  | cons c cs ih =>
      have h1 := escapeChar_length c
      simp only [escapeList, List.length_append, List.length_cons]
      omega

/-- Reading one unescaped string character. -/
theorem parseStringBody_plain (f : Nat) (acc : List Char) (c : Char) (rest : List Char)
    (h1 : ¬ c = '"') (h2 : ¬ c = '\\') (h3 : ¬ c.toNat < 0x20) :
    parseStringBody (f + 1) acc (c :: rest) = parseStringBody f (acc ++ [c]) rest := by
  simp only [parseStringBody]
  rw [if_neg h1, if_neg h2, if_neg h3]

/-- Reading one `\uXXXX` escape outside the surrogate ranges. -/
theorem parseStringBody_u_step (f : Nat) (acc es r2 : List Char) (n : Nat)
    (hp : parseHex4 es = some (n, r2))
    (hlo : ¬ (0xd800 ≤ n ∧ n ≤ 0xdbff)) (hhi : ¬ (0xdc00 ≤ n ∧ n ≤ 0xdfff)) :
    parseStringBody (f + 1) acc ('\\' :: 'u' :: es) =
      parseStringBody f (acc ++ [Char.ofNat n]) r2 := by
  show (match parseHex4 es with
    | none => none
    | some (n, rest2) =>
        if 0xd800 ≤ n ∧ n ≤ 0xdbff then
          (match rest2 with
           | '\\' :: 'u' :: rest3 =>
               (match parseHex4 rest3 with
                | some (n2, rest4) =>
                    if 0xdc00 ≤ n2 ∧ n2 ≤ 0xdfff then
                      parseStringBody f
                        (acc ++ [Char.ofNat (0x10000 + (n - 0xd800) * 0x400 + (n2 - 0xdc00))])
                        rest4
                    else none
                | none => none)
           | _ => none)
        else if 0xdc00 ≤ n ∧ n ≤ 0xdfff then none
        else parseStringBody f (acc ++ [Char.ofNat n]) rest2) = _
  rw [hp]
  show (if 0xd800 ≤ n ∧ n ≤ 0xdbff then _ else
    if 0xdc00 ≤ n ∧ n ≤ 0xdfff then none
    else parseStringBody f (acc ++ [Char.ofNat n]) r2) = _
  rw [if_neg hlo, if_neg hhi]

/-- Reading a `\uXXXX\uXXXX` surrogate-pair escape. -/
theorem parseStringBody_pair_step (f : Nat) (acc es es2 r4 : List Char) (n n2 : Nat)
    (hp1 : parseHex4 es = some (n, '\\' :: 'u' :: es2))
    (hp2 : parseHex4 es2 = some (n2, r4))
    (h1 : 0xd800 ≤ n ∧ n ≤ 0xdbff) (h2 : 0xdc00 ≤ n2 ∧ n2 ≤ 0xdfff) :
    parseStringBody (f + 1) acc ('\\' :: 'u' :: es) =
      parseStringBody f
        (acc ++ [Char.ofNat (0x10000 + (n - 0xd800) * 0x400 + (n2 - 0xdc00))]) r4 := by
  show (match parseHex4 es with
    | none => none
    | some (n, rest2) =>
        if 0xd800 ≤ n ∧ n ≤ 0xdbff then
          (match rest2 with
           | '\\' :: 'u' :: rest3 =>
               (match parseHex4 rest3 with
                | some (n2, rest4) =>
                    if 0xdc00 ≤ n2 ∧ n2 ≤ 0xdfff then
                      parseStringBody f
                        (acc ++ [Char.ofNat (0x10000 + (n - 0xd800) * 0x400 + (n2 - 0xdc00))])
                        rest4
                    else none
                | none => none)
           | _ => none)
        else if 0xdc00 ≤ n ∧ n ≤ 0xdfff then none
        else parseStringBody f (acc ++ [Char.ofNat n]) rest2) = _
  rw [hp1]
  show (if 0xd800 ≤ n ∧ n ≤ 0xdbff then
      (match parseHex4 es2 with
       | some (n2, rest4) =>
           if 0xdc00 ≤ n2 ∧ n2 ≤ 0xdfff then
             parseStringBody f
               (acc ++ [Char.ofNat (0x10000 + (n - 0xd800) * 0x400 + (n2 - 0xdc00))])
               rest4
           else none
       | none => none)
    else _) = _
  rw [if_pos h1, hp2]
  show (if 0xdc00 ≤ n2 ∧ n2 ≤ 0xdfff then
      parseStringBody f
        (acc ++ [Char.ofNat (0x10000 + (n - 0xd800) * 0x400 + (n2 - 0xdc00))]) r4
    else none) = _
  rw [if_pos h2]

/-- The escaped form of every character is read back as that character. -/
theorem parseStringBody_escape (cs : List Char) :
    ∀ (fuel : Nat) (acc rest : List Char), cs.length < fuel →
      parseStringBody fuel acc (escapeList cs ++ '"' :: rest) = some (acc ++ cs, rest) := by
  induction cs with
  | nil =>
      intro fuel acc rest h
      rcases fuel with _ | f
      · omega
      · simp [escapeList, parseStringBody]
  | cons c cs ih =>
      intro fuel acc rest h
      rcases fuel with _ | f
      · omega
      have hf : cs.length < f := by
        simpa using Nat.lt_of_succ_lt_succ h
      have hstep : escapeList (c :: cs) ++ '"' :: rest
          = escapeChar c ++ (escapeList cs ++ '"' :: rest) := by
        simp [escapeList]
      rw [hstep]
      by_cases h1 : c = '"'
      · subst h1
        show parseStringBody f (acc ++ ['"']) (escapeList cs ++ '"' :: rest) = _
        rw [ih f _ rest hf]; simp
      · by_cases h2 : c = '\\'
        · subst h2
          show parseStringBody f (acc ++ ['\\']) (escapeList cs ++ '"' :: rest) = _
          rw [ih f _ rest hf]; simp
        · by_cases h3 : c = '\n'
          · subst h3
            show parseStringBody f (acc ++ ['\n']) (escapeList cs ++ '"' :: rest) = _
            rw [ih f _ rest hf]; simp
          · by_cases h4 : c = '\r'
            · subst h4
              show parseStringBody f (acc ++ ['\x0d']) (escapeList cs ++ '"' :: rest) = _
              rw [ih f _ rest hf]; simp
            · by_cases h5 : c = '\t'
              · subst h5
                show parseStringBody f (acc ++ ['\t']) (escapeList cs ++ '"' :: rest) = _
                rw [ih f _ rest hf]; simp
              · by_cases h6 : c = '\x08'
                · subst h6
                  show parseStringBody f (acc ++ ['\x08']) (escapeList cs ++ '"' :: rest) = _
                  rw [ih f _ rest hf]; simp
                · by_cases h7 : c = '\x0c'
                  · subst h7
                    show parseStringBody f (acc ++ ['\x0c']) (escapeList cs ++ '"' :: rest) = _
                    rw [ih f _ rest hf]; simp
                  · by_cases h8 : 0x20 ≤ c.toNat ∧ c.toNat ≤ 0x7e
                    · have he : escapeChar c = [c] := by
                        rw [escapeChar, if_neg h1, if_neg h2, if_neg h3, if_neg h4, if_neg h5,
                          if_neg h6, if_neg h7, if_pos h8]
                      rw [he, List.singleton_append,
                        parseStringBody_plain f acc c _ h1 h2 (by omega),
                        ih f _ rest hf]; simp
                    · by_cases h9 : c.toNat ≤ 0xffff
                      · have he : escapeChar c = '\\' :: 'u' :: toHex4 c.toNat := by
                          rw [escapeChar, if_neg h1, if_neg h2, if_neg h3, if_neg h4, if_neg h5,
                            if_neg h6, if_neg h7, if_neg h8, if_pos h9]
                        rw [he]
                        have hv := char_valid_nat c
                        rw [List.cons_append, List.cons_append]
                        rw [parseStringBody_u_step f acc _ _ c.toNat
                          (parseHex4_toHex4 (by omega) _) (by omega) (by omega)]
                        rw [Char.ofNat_toNat, ih f _ rest hf]; simp
                      · have he : escapeChar c = '\\' :: 'u' ::
                            toHex4 (0xd800 + (c.toNat - 0x10000) / 0x400) ++
                            ('\\' :: 'u' :: toHex4 (0xdc00 + (c.toNat - 0x10000) % 0x400)) := by
                          rw [escapeChar, if_neg h1, if_neg h2, if_neg h3, if_neg h4, if_neg h5,
                            if_neg h6, if_neg h7, if_neg h8, if_neg h9]
                        rw [he]
                        have hv := char_valid_nat c
                        have hq : (c.toNat - 0x10000) / 0x400 < 0x400 := by omega
                        have hr : (c.toNat - 0x10000) % 0x400 < 0x400 := Nat.mod_lt _ (by omega)
                        have harith : 0x10000 +
                            (0xd800 + (c.toNat - 0x10000) / 0x400 - 0xd800) * 0x400 +
                            (0xdc00 + (c.toNat - 0x10000) % 0x400 - 0xdc00) = c.toNat := by
                          have hdm := Nat.div_add_mod (c.toNat - 0x10000) 0x400
                          omega
                        simp only [List.cons_append, List.append_assoc]
                        rw [parseStringBody_pair_step f acc _ _ _
                          (0xd800 + (c.toNat - 0x10000) / 0x400)
                          (0xdc00 + (c.toNat - 0x10000) % 0x400)
                          (parseHex4_toHex4 (by omega) _) (parseHex4_toHex4 (by omega) _)
                          (by omega) (by omega)]
                        rw [harith, Char.ofNat_toNat, ih f _ rest hf]; simp

/-- Every printed value starts with a non-whitespace character that is not a
closing bracket. -/
theorem dumpsVal_head (ind : Nat) (j : Json) :
    ∃ c t, dumpsVal ind j = c :: t ∧ isWsChar c = false ∧ c ≠ ']' ∧ c ≠ '\x7d' := by
  cases j with
  | null => exact ⟨'n', ['u', 'l', 'l'], by simp [dumpsVal], by decide, by decide, by decide⟩
  | bool b =>
      cases b
      · exact ⟨'f', ['a', 'l', 's', 'e'], by simp [dumpsVal], by decide, by decide, by decide⟩
      · exact ⟨'t', ['r', 'u', 'e'], by simp [dumpsVal], by decide, by decide, by decide⟩
  | num n =>
      by_cases hn : n < 0
      · refine ⟨'-', natDec (-n).toNat, ?_, by decide, by decide, by decide⟩
        rw [show dumpsVal ind (.num n) = intDec n by simp [dumpsVal], intDec, if_pos hn]
      · rcases natDec_head n.toNat with ⟨c, t, hct, hc⟩
        have hd := digit_not_special hc
        refine ⟨c, t, ?_, hd.1, hd.2.2.2.2.2.2.2.2.1, hd.2.2.2.2.2.2.2.2.2⟩
        rw [show dumpsVal ind (.num n) = intDec n by simp [dumpsVal], intDec, if_neg hn, hct]
  | str s =>
      exact ⟨'"', escapeList s.data ++ ['"'], by simp [dumpsVal, encodeString],
        by decide, by decide, by decide⟩
  | arr items =>
      rcases items with _ | ⟨x, xs⟩
      · exact ⟨'[', [']'], by simp [dumpsVal], by decide, by decide, by decide⟩
      · exact ⟨'[', '\n' :: (dumpsItems (ind + 2) x xs ++ '\n' :: (pad ind ++ [']'])),
          by simp [dumpsVal], by decide, by decide, by decide⟩
  | obj members =>
      rcases members with _ | ⟨⟨k, v⟩, ms⟩
      · exact ⟨'\x7b', ['\x7d'], by simp [dumpsVal], by decide, by decide, by decide⟩
      · exact ⟨'\x7b', '\n' :: (dumpsMembers (ind + 2) k v ms ++ '\n' :: (pad ind ++ ['\x7d'])),
          by simp [dumpsVal], by decide, by decide, by decide⟩

/-- Sizes are positive. -/
theorem jsonSize_pos (j : Json) : 1 ≤ jsonSize j := by
  cases j with
  | null => simp [jsonSize]
  | bool b => simp [jsonSize]
  | num n => simp [jsonSize]
  | str s => simp [jsonSize]
  | arr items =>
      rcases items with _ | ⟨x, xs⟩ <;> (simp [jsonSize]; try omega)
  | obj members =>
      rcases members with _ | ⟨⟨k, v⟩, ms⟩ <;> (simp [jsonSize]; try omega)

/-- Lists have positive `sizeOf`. -/
theorem list_sizeOf_pos {α : Type} [SizeOf α] (l : List α) : 1 ≤ sizeOf l := by
  cases l <;> simp <;> omega

/-- The printed text is long enough to serve as parsing fuel. -/
theorem sizeLen_main : ∀ n : Nat,
    (∀ (j : Json) (ind : Nat), sizeOf j ≤ n →
      jsonSize j ≤ (dumpsVal ind j).length + 1) ∧
    (∀ (x : Json) (xs : List Json) (ind : Nat), sizeOf x + sizeOf xs ≤ n →
      itemsSize x xs ≤ (dumpsItems ind x xs).length + 2) ∧
    (∀ (k : String) (v : Json) (ms : List (String × Json)) (ind : Nat),
      sizeOf v + sizeOf ms ≤ n →
      membersSize v ms ≤ (dumpsMembers ind k v ms).length + 2) := by
  intro n
  induction n using Nat.strong_induction_on with
  | _ n IH =>
      refine ⟨?_, ?_, ?_⟩
      · intro j ind hj
        cases j with
        | null => simp [jsonSize, dumpsVal]
        | bool b => cases b <;> simp [jsonSize, dumpsVal]
        | num m => simp [jsonSize, dumpsVal]
        | str s => simp [jsonSize, dumpsVal]
        | arr items =>
            rcases items with _ | ⟨x, xs⟩
            · simp [jsonSize, dumpsVal]
            · have hxs : sizeOf x + sizeOf xs < n := by
                have h1 := list_sizeOf_pos xs
                simp at hj
                omega
              have hit := (IH _ hxs).2.1 x xs (ind + 2) (le_refl _)
              have hlen : (dumpsVal ind (.arr (x :: xs))).length =
                  (dumpsItems (ind + 2) x xs).length + ind + 4 := by
                simp [dumpsVal, pad]
                omega
              rw [show jsonSize (.arr (x :: xs)) = 2 + itemsSize x xs by simp [jsonSize]]
              omega
        | obj members =>
            rcases members with _ | ⟨⟨k, v⟩, ms⟩
            · simp [jsonSize, dumpsVal]
            · have hms : sizeOf v + sizeOf ms < n := by
                have h1 := list_sizeOf_pos ms
                simp at hj
                omega
              have hit := (IH _ hms).2.2 k v ms (ind + 2) (le_refl _)
              have hlen : (dumpsVal ind (.obj (⟨k, v⟩ :: ms))).length =
                  (dumpsMembers (ind + 2) k v ms).length + ind + 4 := by
                simp [dumpsVal, pad]
                omega
              rw [show jsonSize (.obj (⟨k, v⟩ :: ms)) = 2 + membersSize v ms by simp [jsonSize]]
              omega
      · intro x xs ind hxs
        rcases xs with _ | ⟨y, ys⟩
        · have hx : sizeOf x < n := by
            have h1 : (1 : Nat) ≤ sizeOf ([] : List Json) := list_sizeOf_pos _
            omega
          have hv := (IH _ hx).1 x ind (le_refl _)
          have hlen : (dumpsItems ind x []).length = ind + (dumpsVal ind x).length := by
            simp [dumpsItems, pad]
          rw [show itemsSize x [] = jsonSize x + 1 by simp [itemsSize]]
          omega
        · have hx : sizeOf x < n := by
            have h1 := list_sizeOf_pos (y :: ys)
            omega
          have hyys : sizeOf y + sizeOf ys < n := by
            have h1 := list_sizeOf_pos ys
            have h2 : (1 : Nat) ≤ sizeOf x := by
              cases x <;> simp <;> omega
            simp at hxs ⊢
            omega
          have hv := (IH _ hx).1 x ind (le_refl _)
          have hit := (IH _ hyys).2.1 y ys ind (le_refl _)
          have hlen : (dumpsItems ind x (y :: ys)).length =
              ind + (dumpsVal ind x).length + 2 + (dumpsItems ind y ys).length := by
            simp [dumpsItems, pad]
            omega
          rw [show itemsSize x (y :: ys) = jsonSize x + 1 + itemsSize y ys by simp [itemsSize]]
          omega
      · intro k v ms ind hms
        rcases ms with _ | ⟨⟨k2, v2⟩, ms2⟩
        · have hv0 : sizeOf v < n := by
            have h1 : (1 : Nat) ≤ sizeOf ([] : List (String × Json)) := list_sizeOf_pos _
            omega
          have hv := (IH _ hv0).1 v ind (le_refl _)
          have hlen : (dumpsMembers ind k v []).length =
              ind + (encodeString k).length + 2 + (dumpsVal ind v).length := by
            simp [dumpsMembers, pad]
            omega
          rw [show membersSize v [] = jsonSize v + 1 by simp [membersSize]]
          omega
        · have hv0 : sizeOf v < n := by
            have h1 := list_sizeOf_pos (⟨k2, v2⟩ :: ms2)
            omega
          have hms2 : sizeOf v2 + sizeOf ms2 < n := by
            have h1 := list_sizeOf_pos ms2
            have h2 : (1 : Nat) ≤ sizeOf v := by
              cases v <;> simp <;> omega
            simp at hms ⊢
            omega
          have hv := (IH _ hv0).1 v ind (le_refl _)
          have hit := (IH _ hms2).2.2 k2 v2 ms2 ind (le_refl _)
          have hlen : (dumpsMembers ind k v (⟨k2, v2⟩ :: ms2)).length =
              ind + (encodeString k).length + 2 + (dumpsVal ind v).length + 2 +
                (dumpsMembers ind k2 v2 ms2).length := by
            simp [dumpsMembers, pad]
            omega
          rw [show membersSize v (⟨k2, v2⟩ :: ms2) = jsonSize v + 1 + membersSize v2 ms2 by
            simp [membersSize]]
          omega

/-- `['\n']` is whitespace. -/
theorem wsList_nl : WsList ['\n'] := by
  intro d hd
  simp at hd
  rw [hd]
  rfl

/-- `[' ']` is whitespace. -/
theorem wsList_space : WsList [' '] := by
  intro d hd
  simp at hd
  rw [hd]
  rfl

/-- A newline followed by padding is whitespace. -/
theorem wsList_nl_pad (n : Nat) : WsList ('\n' :: pad n) := by
  intro d hd
  rcases List.mem_cons.mp hd with h | h
  · rw [h]
    rfl
  · rw [List.eq_of_mem_replicate h]
    rfl

/-- Skipping a newline and padding stops at the next non-whitespace char. -/
theorem skipWs_nl_pad_cons (n : Nat) {c : Char} (hc : isWsChar c = false) (t : List Char) :
    skipWs ('\n' :: pad n ++ c :: t) = c :: t := by
  rw [show ('\n' :: pad n ++ c :: t) = ('\n' :: pad n) ++ c :: t by simp]
  exact (skipWs_ws_append (wsList_nl_pad n) _).trans (skipWs_cons_not_ws hc _)

/-- Item lists have positive size. -/
theorem itemsSize_pos (x : Json) (xs : List Json) : 1 ≤ itemsSize x xs := by
  rcases xs with _ | ⟨y, ys⟩ <;> (simp [itemsSize]; try omega)

/-- Member lists have positive size. -/
theorem membersSize_pos (v : Json) (ms : List (String × Json)) : 1 ≤ membersSize v ms := by
  rcases ms with _ | ⟨⟨k2, v2⟩, ms2⟩ <;> (simp [membersSize]; try omega)

/-- A printed array body starts with its padding and first value. -/
theorem dumpsItems_expose (ind : Nat) (x : Json) (xs : List Json) :
    ∃ T, dumpsItems ind x xs = pad ind ++ dumpsVal ind x ++ T := by
  rcases xs with _ | ⟨y, ys⟩
  · exact ⟨[], by simp [dumpsItems]⟩
  · exact ⟨',' :: '\n' :: dumpsItems ind y ys, by simp [dumpsItems]⟩

/-- A printed object body starts with its padding and the opening quote of
the first key. -/
theorem dumpsMembers_expose (ind : Nat) (k : String) (v : Json) (ms : List (String × Json)) :
    ∃ T, dumpsMembers ind k v ms = pad ind ++ '"' :: T := by
  rcases ms with _ | ⟨⟨k2, v2⟩, ms2⟩
  · exact ⟨escapeList k.data ++ '"' :: (':' :: ' ' :: dumpsVal ind v),
      by simp [dumpsMembers, encodeString]⟩
  · exact ⟨escapeList k.data ++ '"' ::
      (':' :: ' ' :: (dumpsVal ind v ++ ',' :: '\n' :: dumpsMembers ind k2 v2 ms2)),
      by simp [dumpsMembers, encodeString]⟩

/-- Completeness of the reader against the printer: with enough fuel, a
printed value (preceded by any whitespace and followed by any legal residue)
is read back as itself, a printed non-empty array body is read back as its
elements, and a printed non-empty object body is read back as its members. -/
theorem parse_dumps_main : ∀ fuel : Nat,
    (∀ (j : Json) (ind : Nat) (pre rest : List Char), WsList pre → jsonSize j ≤ fuel →
      TermOk rest →
      parseVal fuel (pre ++ dumpsVal ind j ++ rest) = some (j, rest)) ∧
    (∀ (x : Json) (xs : List Json) (ind ind2 : Nat) (pre : List Char) (acc : List Json)
      (rest : List Char), WsList pre → itemsSize x xs ≤ fuel →
      parseArrItems fuel (pre ++ dumpsItems ind x xs ++ '\n' :: pad ind2 ++ ']' :: rest) acc =
        some (.arr (acc ++ x :: xs), rest)) ∧
    (∀ (k : String) (v : Json) (ms : List (String × Json)) (ind ind2 : Nat) (pre : List Char)
      (acc : List (String × Json)) (rest : List Char), WsList pre →
      membersSize v ms ≤ fuel →
      parseObjMembers fuel (pre ++ dumpsMembers ind k v ms ++ '\n' :: pad ind2 ++ '\x7d' :: rest)
        acc = some (.obj (acc ++ (k, v) :: ms), rest)) := by
  intro fuel
  induction fuel using Nat.strong_induction_on with
  | _ fuel IH =>
  refine ⟨?_, ?_, ?_⟩
  · intro j ind pre rest hpre hsz hrest
    rcases fuel with _ | f
    · have := jsonSize_pos j
      omega
    cases j with
    | null =>
        rw [show dumpsVal ind Json.null = ['n', 'u', 'l', 'l'] by simp [dumpsVal]]
        rw [show pre ++ ['n', 'u', 'l', 'l'] ++ rest
            = pre ++ 'n' :: ('u' :: 'l' :: 'l' :: rest) by simp]
        simp only [parseVal, skipWs_ws_append hpre,
          skipWs_cons_not_ws (show isWsChar 'n' = false by decide)]
        rfl
    | bool b =>
        cases b
        · rw [show dumpsVal ind (Json.bool false) = ['f', 'a', 'l', 's', 'e'] by simp [dumpsVal]]
          rw [show pre ++ ['f', 'a', 'l', 's', 'e'] ++ rest
              = pre ++ 'f' :: ('a' :: 'l' :: 's' :: 'e' :: rest) by simp]
          simp only [parseVal, skipWs_ws_append hpre,
            skipWs_cons_not_ws (show isWsChar 'f' = false by decide)]
          rfl
        · rw [show dumpsVal ind (Json.bool true) = ['t', 'r', 'u', 'e'] by simp [dumpsVal]]
          rw [show pre ++ ['t', 'r', 'u', 'e'] ++ rest
              = pre ++ 't' :: ('r' :: 'u' :: 'e' :: rest) by simp]
          simp only [parseVal, skipWs_ws_append hpre,
            skipWs_cons_not_ws (show isWsChar 't' = false by decide)]
          rfl
    | num n =>
        rw [show dumpsVal ind (Json.num n) = intDec n by simp [dumpsVal]]
        by_cases hn : n < 0
        · rw [show pre ++ intDec n ++ rest = pre ++ '-' :: (natDec (-n).toNat ++ rest) by
            rw [intDec, if_pos hn]; simp]
          simp only [parseVal, skipWs_ws_append hpre,
            skipWs_cons_not_ws (show isWsChar '-' = false by decide)]
          rw [show '-' :: (natDec (-n).toNat ++ rest) = intDec n ++ rest by
            rw [intDec, if_pos hn]; simp]
          rw [parseNum_intDec n rest hrest]
          simp
        · rcases natDec_head n.toNat with ⟨c, t, hct, hc⟩
          have hd := digit_not_special hc
          rw [show pre ++ intDec n ++ rest = pre ++ c :: (t ++ rest) by
            rw [intDec, if_neg hn, hct]; simp]
          simp only [parseVal, skipWs_ws_append hpre, skipWs_cons_not_ws hd.1]
          rw [if_neg hd.2.1, if_neg hd.2.2.1, if_neg hd.2.2.2.1, if_neg hd.2.2.2.2.1,
            if_neg hd.2.2.2.2.2.1, if_neg hd.2.2.2.2.2.2.1]
          rw [show c :: (t ++ rest) = intDec n ++ rest by rw [intDec, if_neg hn, hct]; simp]
          rw [parseNum_intDec n rest hrest]
    | str s =>
        rw [show dumpsVal ind (Json.str s) = '"' :: (escapeList s.data ++ ['"']) by
          simp [dumpsVal, encodeString]]
        rw [show pre ++ ('"' :: (escapeList s.data ++ ['"'])) ++ rest
            = pre ++ '"' :: (escapeList s.data ++ '"' :: rest) by simp]
        simp only [parseVal, skipWs_ws_append hpre,
          skipWs_cons_not_ws (show isWsChar '"' = false by decide)]
        rw [parseStringBody_escape s.data _ [] rest (by
          have h1 := escapeList_length_ge s.data
          simp only [List.length_append, List.length_cons]
          omega)]
        simp
    | arr items =>
        rcases items with _ | ⟨x, xs⟩
        · rw [show dumpsVal ind (Json.arr []) = ['[', ']'] by simp [dumpsVal]]
          rw [show pre ++ ['[', ']'] ++ rest = pre ++ '[' :: (']' :: rest) by simp]
          simp only [parseVal, skipWs_ws_append hpre,
            skipWs_cons_not_ws (show isWsChar '[' = false by decide)]
          have h2 : jsonSize (Json.arr []) = 2 := by simp [jsonSize]
          rcases f with _ | f2
          · omega
          · rfl
        · have hs2 : jsonSize (Json.arr (x :: xs)) = 2 + itemsSize x xs := by simp [jsonSize]
          rw [show dumpsVal ind (Json.arr (x :: xs))
              = '[' :: '\n' :: (dumpsItems (ind + 2) x xs ++ '\n' :: pad ind ++ [']']) by
            simp [dumpsVal]]
          rw [show pre ++ ('[' :: '\n' ::
                (dumpsItems (ind + 2) x xs ++ '\n' :: pad ind ++ [']'])) ++ rest
              = pre ++ '[' ::
                ('\n' :: (dumpsItems (ind + 2) x xs ++ '\n' :: pad ind ++ ']' :: rest)) by simp]
          simp only [parseVal, skipWs_ws_append hpre,
            skipWs_cons_not_ws (show isWsChar '[' = false by decide)]
          rcases f with _ | f2
          · have := itemsSize_pos x xs
            omega
          rcases dumpsItems_expose (ind + 2) x xs with ⟨T, hT⟩
          rcases dumpsVal_head (ind + 2) x with ⟨c, tv, hct, hcw, hcr, hcb⟩
          have hskip : skipWs ('\n' ::
              (dumpsItems (ind + 2) x xs ++ '\n' :: pad ind ++ ']' :: rest))
              = c :: (tv ++ T ++ ('\n' :: pad ind ++ ']' :: rest)) := by
            conv_lhs => rw [hT, hct]
            rw [show '\n' :: ((pad (ind + 2) ++ (c :: tv) ++ T) ++ '\n' :: pad ind ++ ']' :: rest)
                = ('\n' :: pad (ind + 2)) ++
                  c :: (tv ++ T ++ ('\n' :: pad ind ++ ']' :: rest)) by simp]
            exact (skipWs_ws_append (wsList_nl_pad _) _).trans (skipWs_cons_not_ws hcw _)
          simp only [parseArrStart, hskip, List.head?_cons, Option.some.injEq]
          rw [if_neg hcr]
          rw [show ('\n' :: (dumpsItems (ind + 2) x xs ++ '\n' :: pad ind ++ ']' :: rest))
              = ['\n'] ++ dumpsItems (ind + 2) x xs ++ '\n' :: pad ind ++ ']' :: rest by simp]
          rw [(IH f2 (by omega)).2.1 x xs (ind + 2) ind ['\n'] [] rest wsList_nl (by omega)]
          simp
    | obj members =>
        rcases members with _ | ⟨⟨k, v⟩, ms⟩
        · rw [show dumpsVal ind (Json.obj []) = ['\x7b', '\x7d'] by simp [dumpsVal]]
          rw [show pre ++ ['\x7b', '\x7d'] ++ rest = pre ++ '\x7b' :: ('\x7d' :: rest) by simp]
          simp only [parseVal, skipWs_ws_append hpre,
            skipWs_cons_not_ws (show isWsChar '\x7b' = false by decide)]
          have h2 : jsonSize (Json.obj []) = 2 := by simp [jsonSize]
          rcases f with _ | f2
          · omega
          · rfl
        · have hs2 : jsonSize (Json.obj (⟨k, v⟩ :: ms)) = 2 + membersSize v ms := by
            simp [jsonSize]
          rw [show dumpsVal ind (Json.obj (⟨k, v⟩ :: ms))
              = '\x7b' :: '\n' :: (dumpsMembers (ind + 2) k v ms ++ '\n' :: pad ind ++ ['\x7d']) by
            simp [dumpsVal]]
          rw [show pre ++ ('\x7b' :: '\n' ::
                (dumpsMembers (ind + 2) k v ms ++ '\n' :: pad ind ++ ['\x7d'])) ++ rest
              = pre ++ '\x7b' ::
                ('\n' :: (dumpsMembers (ind + 2) k v ms ++ '\n' :: pad ind ++ '\x7d' :: rest)) by
            simp]
          simp only [parseVal, skipWs_ws_append hpre,
            skipWs_cons_not_ws (show isWsChar '\x7b' = false by decide)]
          rcases f with _ | f2
          · have := membersSize_pos v ms
            omega
          rcases dumpsMembers_expose (ind + 2) k v ms with ⟨T, hT⟩
          have hskip : skipWs ('\n' ::
              (dumpsMembers (ind + 2) k v ms ++ '\n' :: pad ind ++ '\x7d' :: rest))
              = '"' :: (T ++ ('\n' :: pad ind ++ '\x7d' :: rest)) := by
            conv_lhs => rw [hT]
            rw [show '\n' :: ((pad (ind + 2) ++ '"' :: T) ++ '\n' :: pad ind ++ '\x7d' :: rest)
                = ('\n' :: pad (ind + 2)) ++
                  '"' :: (T ++ ('\n' :: pad ind ++ '\x7d' :: rest)) by simp]
            exact (skipWs_ws_append (wsList_nl_pad _) _).trans
              (skipWs_cons_not_ws (by decide) _)
          simp only [parseObjStart, hskip, List.head?_cons, Option.some.injEq]
          rw [if_neg (by decide)]
          rw [show ('\n' :: (dumpsMembers (ind + 2) k v ms ++ '\n' :: pad ind ++ '\x7d' :: rest))
              = ['\n'] ++ dumpsMembers (ind + 2) k v ms ++ '\n' :: pad ind ++ '\x7d' :: rest by
            simp]
          rw [(IH f2 (by omega)).2.2 k v ms (ind + 2) ind ['\n'] [] rest wsList_nl (by omega)]
          simp
  · intro x xs ind ind2 pre acc rest hpre hsz
    rcases fuel with _ | f
    · have := itemsSize_pos x xs
      omega
    rcases xs with _ | ⟨y, ys⟩
    · have hx : jsonSize x ≤ f := by
        have h1 : itemsSize x [] = jsonSize x + 1 := by simp [itemsSize]
        omega
      have hv := (IH f (by omega)).1 x ind (pre ++ pad ind)
        ('\n' :: pad ind2 ++ ']' :: rest) (wsList_append hpre (wsList_pad ind)) hx
        (Or.inr (Or.inl rfl))
      rw [show pre ++ dumpsItems ind x [] ++ '\n' :: pad ind2 ++ ']' :: rest
          = (pre ++ pad ind) ++ dumpsVal ind x ++ ('\n' :: pad ind2 ++ ']' :: rest) by
        simp [dumpsItems]]
      have hskip : skipWs ('\n' :: pad ind2 ++ ']' :: rest) = ']' :: rest :=
        skipWs_nl_pad_cons ind2 (by decide) rest
      simp only [parseArrItems, hv, hskip]
    · have hx : jsonSize x ≤ f ∧ itemsSize y ys ≤ f := by
        have h1 : itemsSize x (y :: ys) = jsonSize x + 1 + itemsSize y ys := by
          simp [itemsSize]
        have h2 := jsonSize_pos x
        have h3 := itemsSize_pos y ys
        omega
      have hv := (IH f (by omega)).1 x ind (pre ++ pad ind)
        (',' :: '\n' :: dumpsItems ind y ys ++ '\n' :: pad ind2 ++ ']' :: rest)
        (wsList_append hpre (wsList_pad ind)) hx.1 (Or.inl rfl)
      rw [show pre ++ dumpsItems ind x (y :: ys) ++ '\n' :: pad ind2 ++ ']' :: rest
          = (pre ++ pad ind) ++ dumpsVal ind x ++
            (',' :: '\n' :: dumpsItems ind y ys ++ '\n' :: pad ind2 ++ ']' :: rest) by
        simp [dumpsItems]]
      have hskip : skipWs (',' :: '\n' :: dumpsItems ind y ys ++
          '\n' :: pad ind2 ++ ']' :: rest)
          = ',' :: ('\n' :: dumpsItems ind y ys ++ '\n' :: pad ind2 ++ ']' :: rest) :=
        skipWs_cons_not_ws (by decide) _
      simp only [parseArrItems, hv, hskip]
      rw [show ('\n' :: dumpsItems ind y ys ++ '\n' :: pad ind2 ++ ']' :: rest)
          = ['\n'] ++ dumpsItems ind y ys ++ '\n' :: pad ind2 ++ ']' :: rest by simp]
      rw [(IH f (by omega)).2.1 y ys ind ind2 ['\n'] (acc ++ [x]) rest wsList_nl hx.2]
      simp
  · intro k v ms ind ind2 pre acc rest hpre hsz
    rcases fuel with _ | f
    · have := membersSize_pos v ms
      omega
    rcases ms with _ | ⟨⟨k2, v2⟩, ms2⟩
    · have hx : jsonSize v ≤ f := by
        have h1 : membersSize v [] = jsonSize v + 1 := by simp [membersSize]
        omega
      rw [show pre ++ dumpsMembers ind k v [] ++ '\n' :: pad ind2 ++ '\x7d' :: rest
          = (pre ++ pad ind) ++ '"' :: (escapeList k.data ++
            '"' :: (':' :: ' ' :: (dumpsVal ind v ++ ('\n' :: pad ind2 ++ '\x7d' :: rest)))) by
        simp [dumpsMembers, encodeString]]
      have hskip0 : skipWs ((pre ++ pad ind) ++ '"' :: (escapeList k.data ++
          '"' :: (':' :: ' ' :: (dumpsVal ind v ++ ('\n' :: pad ind2 ++ '\x7d' :: rest)))))
          = '"' :: (escapeList k.data ++
            '"' :: (':' :: ' ' :: (dumpsVal ind v ++ ('\n' :: pad ind2 ++ '\x7d' :: rest)))) :=
        (skipWs_ws_append (wsList_append hpre (wsList_pad ind)) _).trans
          (skipWs_cons_not_ws (by decide) _)
      have hstr := parseStringBody_escape k.data
        ((escapeList k.data ++ '"' ::
          (':' :: ' ' :: (dumpsVal ind v ++ ('\n' :: pad ind2 ++ '\x7d' :: rest)))).length + 1)
        [] (':' :: ' ' :: (dumpsVal ind v ++ ('\n' :: pad ind2 ++ '\x7d' :: rest)))
        (by
          have h1 := escapeList_length_ge k.data
          simp only [List.length_append, List.length_cons]
          omega)
      have hv := (IH f (by omega)).1 v ind [' ']
        ('\n' :: pad ind2 ++ '\x7d' :: rest) wsList_space hx (Or.inr (Or.inl rfl))
      rw [show [' '] ++ dumpsVal ind v ++ ('\n' :: pad ind2 ++ '\x7d' :: rest)
          = ' ' :: (dumpsVal ind v ++ ('\n' :: pad ind2 ++ '\x7d' :: rest)) by simp] at hv
      have hskipc : skipWs (':' :: ' ' ::
          (dumpsVal ind v ++ ('\n' :: pad ind2 ++ '\x7d' :: rest)))
          = ':' :: ' ' :: (dumpsVal ind v ++ ('\n' :: pad ind2 ++ '\x7d' :: rest)) :=
        skipWs_cons_not_ws (by decide) _
      have hskipt : skipWs ('\n' :: pad ind2 ++ '\x7d' :: rest) = '\x7d' :: rest :=
        skipWs_nl_pad_cons ind2 (by decide) rest
      simp only [parseObjMembers, hskip0, hstr, List.nil_append, hskipc, hv, hskipt]
    · have hx : jsonSize v ≤ f ∧ membersSize v2 ms2 ≤ f := by
        have h1 : membersSize v (⟨k2, v2⟩ :: ms2) = jsonSize v + 1 + membersSize v2 ms2 := by
          simp [membersSize]
        have h2 := jsonSize_pos v
        have h3 := membersSize_pos v2 ms2
        omega
      rw [show pre ++ dumpsMembers ind k v (⟨k2, v2⟩ :: ms2) ++
            '\n' :: pad ind2 ++ '\x7d' :: rest
          = (pre ++ pad ind) ++ '"' :: (escapeList k.data ++
            '"' :: (':' :: ' ' :: (dumpsVal ind v ++
              (',' :: '\n' :: dumpsMembers ind k2 v2 ms2 ++
                '\n' :: pad ind2 ++ '\x7d' :: rest)))) by
        simp [dumpsMembers, encodeString]]
      have hskip0 : skipWs ((pre ++ pad ind) ++ '"' :: (escapeList k.data ++
          '"' :: (':' :: ' ' :: (dumpsVal ind v ++
            (',' :: '\n' :: dumpsMembers ind k2 v2 ms2 ++
              '\n' :: pad ind2 ++ '\x7d' :: rest)))))
          = '"' :: (escapeList k.data ++
            '"' :: (':' :: ' ' :: (dumpsVal ind v ++
              (',' :: '\n' :: dumpsMembers ind k2 v2 ms2 ++
                '\n' :: pad ind2 ++ '\x7d' :: rest)))) :=
        (skipWs_ws_append (wsList_append hpre (wsList_pad ind)) _).trans
          (skipWs_cons_not_ws (by decide) _)
      have hstr := parseStringBody_escape k.data
        ((escapeList k.data ++ '"' :: (':' :: ' ' :: (dumpsVal ind v ++
          (',' :: '\n' :: dumpsMembers ind k2 v2 ms2 ++
            '\n' :: pad ind2 ++ '\x7d' :: rest)))).length + 1)
        [] (':' :: ' ' :: (dumpsVal ind v ++
          (',' :: '\n' :: dumpsMembers ind k2 v2 ms2 ++ '\n' :: pad ind2 ++ '\x7d' :: rest)))
        (by
          have h1 := escapeList_length_ge k.data
          simp only [List.length_append, List.length_cons]
          omega)
      have hv := (IH f (by omega)).1 v ind [' ']
        (',' :: '\n' :: dumpsMembers ind k2 v2 ms2 ++ '\n' :: pad ind2 ++ '\x7d' :: rest)
        wsList_space hx.1 (Or.inl rfl)
      rw [show [' '] ++ dumpsVal ind v ++
            (',' :: '\n' :: dumpsMembers ind k2 v2 ms2 ++ '\n' :: pad ind2 ++ '\x7d' :: rest)
          = ' ' :: (dumpsVal ind v ++
            (',' :: '\n' :: dumpsMembers ind k2 v2 ms2 ++
              '\n' :: pad ind2 ++ '\x7d' :: rest)) by simp] at hv
      have hskipc : skipWs (':' :: ' ' :: (dumpsVal ind v ++
          (',' :: '\n' :: dumpsMembers ind k2 v2 ms2 ++ '\n' :: pad ind2 ++ '\x7d' :: rest)))
          = ':' :: ' ' :: (dumpsVal ind v ++
            (',' :: '\n' :: dumpsMembers ind k2 v2 ms2 ++
              '\n' :: pad ind2 ++ '\x7d' :: rest)) :=
        skipWs_cons_not_ws (by decide) _
      have hskipm : skipWs (',' :: '\n' :: dumpsMembers ind k2 v2 ms2 ++
          '\n' :: pad ind2 ++ '\x7d' :: rest)
          = ',' :: ('\n' :: dumpsMembers ind k2 v2 ms2 ++
            '\n' :: pad ind2 ++ '\x7d' :: rest) :=
        skipWs_cons_not_ws (by decide) _
      simp only [parseObjMembers, hskip0, hstr, List.nil_append, hskipc, hv, hskipm]
      rw [show ('\n' :: dumpsMembers ind k2 v2 ms2 ++ '\n' :: pad ind2 ++ '\x7d' :: rest)
          = ['\n'] ++ dumpsMembers ind k2 v2 ms2 ++ '\n' :: pad ind2 ++ '\x7d' :: rest by simp]
      rw [(IH f (by omega)).2.2 k2 v2 ms2 ind ind2 ['\n']
        (acc ++ [(String.mk k.data, v)]) rest wsList_nl hx.2]
      simp

/-- Reading back pretty-printed output returns the printed value. -/
theorem loads_dumps (j : Json) : loads (dumps j) = some j := by
  rw [loads, dumps]
  have hlen : jsonSize j ≤ (String.mk (dumpsVal 0 j)).length + 1 := by
    have h1 := (sizeLen_main (sizeOf j)).1 j 0 (le_refl _)
    have he : (String.mk (dumpsVal 0 j)).length = (dumpsVal 0 j).length := rfl
    omega
  have h := (parse_dumps_main ((String.mk (dumpsVal 0 j)).length + 1)).1 j 0 [] []
    (by intro c hc; cases hc) hlen trivial
  rw [show ([] : List Char) ++ dumpsVal 0 j ++ [] = dumpsVal 0 j by simp] at h
  rw [show (String.mk (dumpsVal 0 j)).data = dumpsVal 0 j from rfl]
  rw [h]
  rfl

/-- C8: loading any top-level JSON object as a document yields exactly one
text unit whose content is the pretty-printed object, and re-parsing that
content as JSON gives back exactly the original object — in particular for
the single-member object mapping `a` to `1`. -/
theorem c8_object_round_trip (members : List (String × Json)) (path : String) :
    load_json_document (.obj members) path = [⟨dumps (.obj members), path⟩] ∧
    loads (dumps (.obj members)) = some (.obj members) := by
  constructor
  · rfl
  · exact loads_dumps _

end Zania
